import Mathlib

/-!
Shallow embedding of the chess rules engine in `src/chess_board.py` /
`src/chess_piece.py` (classes `ChessBoard`, `ChessPiece`, `PieceMove`).

Conventions of the embedding:
* `PieceType` values are the source's bitwise-packed `IntEnum` codes
  (`WHITE = 0x00`, `BLACK = 0x40`, kind bits `KING = 0x20` … `PAWN = 0x01`,
  `EMPTY = 0x00`), kept as plain `Nat`s with the same masks.
* `board_status` (`list[list[PieceType]]` indexed `[rank][file]`) is embedded
  as a total function `Int → Int → Nat`; every access the source performs is
  guarded by the same bounds tests the source performs, so values outside
  `[0,7] × [0,7]` are never consulted by the embedded operations (the one
  deliberately unguarded site, the pawn generator, gets a separate
  instrumented model of its reads below).
* Python `while` loops that walk rays are embedded as fuel-based recursion;
  fuel 8 dominates every walk, since each step moves one square on an 8×8
  board and the loop condition re-checks bounds every iteration.
* Mutable `ChessPiece` objects are piece identities: a `GameState` maps a
  `PieceId` to the piece's current record, mirroring the aliasing of the
  source (`active` lists, move history and `item_*` fields all refer to the
  same objects).
* `exit()` calls of the source (missing king, malformed move, invalid turn)
  are noted where they occur; the embedded function returns an (explicitly
  commented) default on those paths, and every theorem below carries
  hypotheses that keep it away from them.
-/

namespace Chess

/-! ### PieceType constants (source: `chess_piece.py`, `class PieceType`) -/

def ptWHITE  : Nat := 0x00
def ptBLACK  : Nat := 0x40
def ptKING   : Nat := 0x20
def ptQUEEN  : Nat := 0x10
def ptROOK   : Nat := 0x08
def ptBISHOP : Nat := 0x04
def ptKNIGHT : Nat := 0x02
def ptPAWN   : Nat := 0x01
def ptEMPTY  : Nat := 0x00
def COLOR_MASK : Nat := 0x40
def PIECE_MASK : Nat := 0x3F

def WHITE_KING   : Nat := ptWHITE ||| ptKING
def WHITE_QUEEN  : Nat := ptWHITE ||| ptQUEEN
def WHITE_ROOK   : Nat := ptWHITE ||| ptROOK
def WHITE_BISHOP : Nat := ptWHITE ||| ptBISHOP
def WHITE_KNIGHT : Nat := ptWHITE ||| ptKNIGHT
def WHITE_PAWN   : Nat := ptWHITE ||| ptPAWN
def BLACK_KING   : Nat := ptBLACK ||| ptKING
def BLACK_QUEEN  : Nat := ptBLACK ||| ptQUEEN
def BLACK_ROOK   : Nat := ptBLACK ||| ptROOK
def BLACK_BISHOP : Nat := ptBLACK ||| ptBISHOP
def BLACK_KNIGHT : Nat := ptBLACK ||| ptKNIGHT
def BLACK_PAWN   : Nat := ptBLACK ||| ptPAWN

/-- `ChessPiece.getPieceColor` -/
def getPieceColor (p : Nat) : Nat := p &&& COLOR_MASK
/-- `ChessPiece.getPieceKind` -/
def getPieceKind (p : Nat) : Nat := p &&& PIECE_MASK
/-- `ChessPiece.isEmpty` -/
def ptIsEmpty (p : Nat) : Bool := p == ptEMPTY
/-- `ChessPiece.isMyPiece` -/
def isMyPiece (p turn : Nat) : Bool := getPieceColor p == turn
/-- `ChessPiece.isOpponentPiece` -/
def isOpponentPiece (p turn : Nat) : Bool := getPieceColor p != turn

/-! ### Board -/

/-- `board_status : list[list[PieceType]]`, embedded as a total function
`(rank, file) ↦ occupant`.  All embedded reads are bounds-guarded exactly
where the source's are. -/
def Board := Int → Int → Nat

/-- Write one square (`boardStatus[r][f] = v`). -/
def setB (b : Board) (r f : Int) (v : Nat) : Board :=
  fun r' f' => if r' = r ∧ f' = f then v else b r' f'

@[simp] theorem setB_same (b : Board) (r f : Int) (v : Nat) : setB b r f v r f = v := by
  simp [setB]

theorem setB_other (b : Board) (r f : Int) (v : Nat) {r' f' : Int}
    (h : ¬(r' = r ∧ f' = f)) : setB b r f v r' f' = b r' f' := by
  simp [setB, h]

/-! ### Piece identities and moves -/

/-- The mutable per-object state of a `ChessPiece` item (its square, its
packed `PieceType` and the `has_moved` flag). -/
structure Piece where
  rank : Int
  file : Int
  ptype : Nat
  already_moved : Bool
deriving DecidableEq, Repr

/-- `ChessPiece.PieceColor` -/
def Piece.color (p : Piece) : Nat := p.ptype &&& COLOR_MASK
/-- `ChessPiece.PieceKind` -/
def Piece.kind (p : Piece) : Nat := p.ptype &&& PIECE_MASK

/-- Stable identity of one of the 32 `ChessPiece` objects
(`self.item_white_king`, …). -/
abbrev PieceId := Nat

def idWhiteKing  : PieceId := 0
def idWhiteQueen : PieceId := 1
def idWhiteRookA : PieceId := 2
def idWhiteRookH : PieceId := 3
def idBlackKing  : PieceId := 16
def idBlackQueen : PieceId := 17
def idBlackRookA : PieceId := 18
def idBlackRookH : PieceId := 19

/-- `MoveType` (source: `chess_piece.py`). -/
inductive MoveType where
  | BASIC
  | PROMOTION
  | CASTLING_K
  | CASTLING_Q
  | EN_PASSANT
deriving DecidableEq, Repr

/-- `PieceMove` (source: `chess_piece.py`).  Piece references become ids. -/
structure PieceMove where
  piece_to_move : PieceId
  piece_in_capture : Option PieceId
  piece_aux : Option PieceId
  move_type : MoveType
  old_square : Int × Int
  new_square : Int × Int
  aux_square : Option (List (Int × Int))
deriving DecidableEq, Repr

/-- The engine-relevant fields of a `ChessBoard` object.  Rendering-only
state (scene, animations, highlight pixmaps, the `reversed` view flag) is
out of scope; `boardClickHandler` is embedded at the square level, after the
pixel→square translation. -/
structure GameState where
  board_status : Board
  pieces : PieceId → Piece
  active_white : List PieceId
  active_black : List PieceId
  turn : Nat
  move_history : List PieceMove
  promotion_mode : Bool
  is_in_focus : Bool
  piece_in_focus : Option PieceId
  avail_moves : List PieceMove

/-- Outcome reported by `__check_game_over` (via the `gameOverWin` /
`gameOverTie` signals; `ongoing` = the silent `else: return` branch). -/
inductive GameOutcome where
  | win (winner : Nat)
  | tie
  | ongoing
deriving DecidableEq, Repr

/-! ### The king-safety oracle `ChessBoard.__check_king_safety`

The source first locates the king by a double loop over the grid (the inner
`break` stops the file scan of a rank; the rank scan continues, so a later
rank overrides an earlier find), then runs eight ray walks plus a knight
probe, OR-ing hits into `_is_king_on_attack`. -/

/-- Inner file loop of the king search: first file of `rank` holding
`turn`'s king. -/
def find_king_file (board : Board) (turn : Nat) (rank : Int) : Option Nat :=
  (List.range 8).find? fun f =>
    getPieceColor (board rank (f : Int)) == turn &&
    getPieceKind (board rank (f : Int)) == ptKING

/-- Outer rank loop of the king search; `(-1, -1)` means not found (the
source then prints an error and `exit()`s). -/
def find_king (turn : Nat) (board : Board) : Int × Int :=
  (List.range 8).foldl
    (fun acc r =>
      match find_king_file board turn (r : Int) with
      | some f => ((r : Int), (f : Int))
      | none => acc)
    (-1, -1)

/-- One ray walk of `__check_king_safety`.  The walker stands at step `j`
(square `(kr + j·dr, kf + j·df)`, with `j` also playing the source's `_dist`
counter, which the source increments in lockstep with the position); `cond`
is the literal loop condition of the corresponding `while`, and
`attackKinds j` the `_attackable_piece` list the source builds at distance
`j`.  Fuel 8 dominates the walk (see the header note). -/
def scanRayAux (board : Board) (turn : Nat) (kr kf dr df : Int)
    (cond : Int → Int → Bool) (attackKinds : Nat → List Nat) :
    Nat → Nat → Bool
  | _, 0 => false
  | j, fuel+1 =>
    let r := kr + (j : Int) * dr
    let f := kf + (j : Int) * df
    if cond r f then
      let p := board r f
      if ptIsEmpty p then
        scanRayAux board turn kr kf dr df cond attackKinds (j + 1) fuel
      else if isMyPiece p turn then
        false
      else
        decide (getPieceKind p ∈ attackKinds j)
    else false

def scanRay (board : Board) (turn : Nat) (kr kf dr df : Int)
    (cond : Int → Int → Bool) (attackKinds : Nat → List Nat) : Bool :=
  scanRayAux board turn kr kf dr df cond attackKinds 1 8

/-- `_attackable_piece` list of the four orthogonal walks. -/
def orthKinds (dist : Nat) : List Nat :=
  [ptROOK, ptQUEEN] ++ (if dist = 1 then [ptKING] else [])

/-- `_attackable_piece` list of the diagonal walks whose rank step is `+1`
(`LEFT-UP`, `RIGHT-UP`): the pawn is appended only when `turn == WHITE`. -/
def diagKindsUp (turn : Nat) (dist : Nat) : List Nat :=
  [ptBISHOP, ptQUEEN] ++
    (if dist = 1 then [ptKING] ++ (if turn = ptWHITE then [ptPAWN] else []) else [])

/-- `_attackable_piece` list of the diagonal walks whose rank step is `-1`
(`LEFT-DOWN`, `RIGHT-DOWN`): the pawn is appended only when `turn == BLACK`. -/
def diagKindsDown (turn : Nat) (dist : Nat) : List Nat :=
  [ptBISHOP, ptQUEEN] ++
    (if dist = 1 then [ptKING] ++ (if turn = ptBLACK then [ptPAWN] else []) else [])

/-- Walk 1, `UP` (`while _rank < 8`). -/
def scanUp (board : Board) (turn : Nat) (kr kf : Int) : Bool :=
  scanRay board turn kr kf 1 0 (fun r _ => r < 8) orthKinds
/-- Walk 2, `DOWN` (`while _rank >= 0`). -/
def scanDown (board : Board) (turn : Nat) (kr kf : Int) : Bool :=
  scanRay board turn kr kf (-1) 0 (fun r _ => 0 ≤ r) orthKinds
/-- Walk 3, `LEFT` (`while _file >= 0`). -/
def scanLeft (board : Board) (turn : Nat) (kr kf : Int) : Bool :=
  scanRay board turn kr kf 0 (-1) (fun _ f => 0 ≤ f) orthKinds
/-- Walk 4, `RIGHT` (`while _file < 8`). -/
def scanRight (board : Board) (turn : Nat) (kr kf : Int) : Bool :=
  scanRay board turn kr kf 0 1 (fun _ f => f < 8) orthKinds
/-- Walk 5, `LEFT-UP` (`while _rank < 8 and _file >= 0`). -/
def scanLeftUp (board : Board) (turn : Nat) (kr kf : Int) : Bool :=
  scanRay board turn kr kf 1 (-1) (fun r f => r < 8 && 0 ≤ f) (diagKindsUp turn)
/-- Walk 6, `RIGHT-UP` (`while _rank < 8 and _file < 8`). -/
def scanRightUp (board : Board) (turn : Nat) (kr kf : Int) : Bool :=
  scanRay board turn kr kf 1 1 (fun r f => r < 8 && f < 8) (diagKindsUp turn)
/-- Walk 7, `LEFT-DOWN` (`while _rank >= 0 and _file >= 0`). -/
def scanLeftDown (board : Board) (turn : Nat) (kr kf : Int) : Bool :=
  scanRay board turn kr kf (-1) (-1) (fun r f => 0 ≤ r && 0 ≤ f) (diagKindsDown turn)
/-- Walk 8, `RIGHT-DOWN` (`while _rank >= 0 and _file < 8`). -/
def scanRightDown (board : Board) (turn : Nat) (kr kf : Int) : Bool :=
  scanRay board turn kr kf (-1) 1 (fun r f => 0 ≤ r && f < 8) (diagKindsDown turn)

/-- The eight knight leap offsets, in source order. -/
def knightLeaps : List (Int × Int) :=
  [(-2, 1), (-1, 2), (1, 2), (2, 1), (2, -1), (1, -2), (-1, -2), (-2, -1)]

/-- Step 9 of `__check_king_safety`: the knight probe (a `for` loop OR-ing
into the flag, hence `any`). -/
def knightAttack (board : Board) (turn : Nat) (kr kf : Int) : Bool :=
  knightLeaps.any fun l =>
    let r := kr + l.1
    let f := kf + l.2
    if 0 ≤ r && r < 8 && 0 ≤ f && f < 8 then
      isOpponentPiece (board r f) turn &&
        getPieceKind (board r f) == ptKNIGHT
    else false

/-- `ChessBoard.__check_king_safety(turn, boardStatus)`.
When the king search fails the source prints an error and `exit()`s; the
embedded function returns `true` on that (dead, for all theorems below)
branch. -/
def check_king_safety (turn : Nat) (board : Board) : Bool :=
  let kp := find_king turn board
  if kp = (-1, -1) then
    true
  else
    let kr := kp.1
    let kf := kp.2
    !(scanUp board turn kr kf || scanDown board turn kr kf ||
      scanLeft board turn kr kf || scanRight board turn kr kf ||
      scanLeftUp board turn kr kf || scanRightUp board turn kr kf ||
      scanLeftDown board turn kr kf || scanRightDown board turn kr kf ||
      knightAttack board turn kr kf)

/-! ### Applying a move to a board grid
(`ChessBoard.__apply_move_to_board_status`) -/

/-- `__apply_move_to_board_status(move, boardStatus)`.  Reads the mover's /
auxiliary piece's *current* packed type through the piece map (the source
dereferences the shared `ChessPiece` object).  A castling / en-passant move
with a missing or short auxiliary-square list makes the source print an
error and `exit()` (or raise); the embedded function returns the board
unchanged on those (dead) branches. -/
def apply_move_to_board_status (pieces : PieceId → Piece) (move : PieceMove)
    (boardStatus : Board) : Board :=
  match move.move_type with
  | MoveType.BASIC | MoveType.PROMOTION =>
    let old := move.old_square
    let new := move.new_square
    setB (setB boardStatus old.1 old.2 ptEMPTY) new.1 new.2
      (pieces move.piece_to_move).ptype
  | MoveType.CASTLING_K | MoveType.CASTLING_Q =>
    match move.aux_square, move.piece_aux with
    | some (rookOld :: rookNew :: _), some aux =>
      let kOld := move.old_square
      let kNew := move.new_square
      setB (setB (setB (setB boardStatus kOld.1 kOld.2 ptEMPTY)
        kNew.1 kNew.2 (pieces move.piece_to_move).ptype)
        rookOld.1 rookOld.2 ptEMPTY)
        rookNew.1 rookNew.2 (pieces aux).ptype
    | _, _ => boardStatus  -- source: error + exit()
  | MoveType.EN_PASSANT =>
    match move.aux_square with
    | some (auxSq :: _) =>
      let old := move.old_square
      let new := move.new_square
      setB (setB (setB boardStatus old.1 old.2 ptEMPTY)
        new.1 new.2 (pieces move.piece_to_move).ptype)
        auxSq.1 auxSq.2 ptEMPTY
    | _ => boardStatus  -- source: error + exit()

/-! ### Pseudo-legal square generation -/

/-- `MoveDir` (source: `chess_board.py`). -/
inductive MoveDir where
  | UP | DOWN | LEFT | RIGHT | LEFTUP | RIGHTUP | LEFTDOWN | RIGHTDOWN | KNIGHT
deriving DecidableEq, Repr

/-- One sliding walk of `__get_squares_on_path` (`while cond and
_dist <= maxdist`), collecting reachable squares: append-and-continue on
empty, append-and-stop on an enemy, stop on an ally. -/
def walkPath (board : Board) (color : Nat) (dr df : Int)
    (cond : Int → Int → Bool) (maxdist : Nat) :
    Int → Int → Nat → Nat → List (Int × Int)
  | _, _, _, 0 => []
  | r, f, dist, fuel+1 =>
    if cond r f && decide (dist ≤ maxdist) then
      let p := board r f
      if p == ptEMPTY then
        (r, f) :: walkPath board color dr df cond maxdist (r + dr) (f + df) (dist + 1) fuel
      else if p &&& COLOR_MASK != color then
        [(r, f)]
      else
        []
    else []

/-- `ChessBoard.__get_squares_on_path(movedir, color, rank, file, maxdist)`. -/
def get_squares_on_path (board : Board) (movedir : MoveDir) (color : Nat)
    (rank file : Int) (maxdist : Nat) : List (Int × Int) :=
  match movedir with
  | MoveDir.UP =>
    walkPath board color 1 0 (fun r _ => r < 8) maxdist (rank + 1) file 1 8
  | MoveDir.DOWN =>
    walkPath board color (-1) 0 (fun r _ => 0 ≤ r) maxdist (rank - 1) file 1 8
  | MoveDir.LEFT =>
    walkPath board color 0 (-1) (fun _ f => 0 ≤ f) maxdist rank (file - 1) 1 8
  | MoveDir.RIGHT =>
    walkPath board color 0 1 (fun _ f => f < 8) maxdist rank (file + 1) 1 8
  | MoveDir.LEFTUP =>
    walkPath board color 1 (-1) (fun r f => r < 8 && 0 ≤ f) maxdist (rank + 1) (file - 1) 1 8
  | MoveDir.RIGHTUP =>
    walkPath board color 1 1 (fun r f => r < 8 && f < 8) maxdist (rank + 1) (file + 1) 1 8
  | MoveDir.LEFTDOWN =>
    walkPath board color (-1) (-1) (fun r f => 0 ≤ r && 0 ≤ f) maxdist (rank - 1) (file - 1) 1 8
  | MoveDir.RIGHTDOWN =>
    walkPath board color (-1) 1 (fun r f => 0 ≤ r && f < 8) maxdist (rank - 1) (file + 1) 1 8
  | MoveDir.KNIGHT =>
    knightLeaps.foldr
      (fun l acc =>
        let r := rank + l.1
        let f := file + l.2
        if 0 ≤ r && r < 8 && 0 ≤ f && f < 8 then
          if board r f == ptEMPTY || board r f &&& COLOR_MASK != color then
            (r, f) :: acc
          else acc
        else acc)
      []

/-- `ChessBoard.__get_squares_pawn(color, is_already_moved, rank, file)`.
The forward reads `boardStatus[rank±1][file]` / `[rank±2][file]` and the
diagonal reads `boardStatus[rank±1][file∓1 / file±1]` carry no rank-bounds
guard in the source (the claim-C10 instrumentation below records exactly the
rank indices they touch); on the total-function board they simply read the
unconstrained value. -/
def get_squares_pawn (board : Board) (color : Nat) (is_already_moved : Bool)
    (rank file : Int) : List (Int × Int) :=
  if color = ptWHITE then
    (if board (rank + 1) file == ptEMPTY then
      (rank + 1, file) ::
        (if !is_already_moved && (board (rank + 2) file == ptEMPTY) then
          [(rank + 2, file)]
        else [])
    else []) ++
    (if file > 0 then
      if board (rank + 1) (file - 1) != ptEMPTY &&
         (board (rank + 1) (file - 1) &&& COLOR_MASK == ptBLACK) then
        [(rank + 1, file - 1)]
      else []
    else []) ++
    (if file < 7 then
      if board (rank + 1) (file + 1) != ptEMPTY &&
         (board (rank + 1) (file + 1) &&& COLOR_MASK == ptBLACK) then
        [(rank + 1, file + 1)]
      else []
    else [])
  else if color = ptBLACK then
    (if board (rank - 1) file == ptEMPTY then
      (rank - 1, file) ::
        (if !is_already_moved && (board (rank - 2) file == ptEMPTY) then
          [(rank - 2, file)]
        else [])
    else []) ++
    (if file > 0 then
      if board (rank - 1) (file - 1) != ptEMPTY &&
         (board (rank - 1) (file - 1) &&& COLOR_MASK == ptWHITE) then
        [(rank - 1, file - 1)]
      else []
    else []) ++
    (if file < 7 then
      if board (rank - 1) (file + 1) != ptEMPTY &&
         (board (rank - 1) (file + 1) &&& COLOR_MASK == ptWHITE) then
        [(rank - 1, file + 1)]
      else []
    else [])
  else []  -- `match` with no case taken: _candidate_square stays []

/-! ### Claim-C10 instrumentation of the pawn generator

`pawnRankReads` records, in evaluation order, the rank index of every
`board_status[...]` subscript `__get_squares_pawn` performs, following the
source's control flow (the `rank±2` read happens only inside the
`boardStatus[rank±1][file] == EMPTY` branch and only when the pawn has not
moved; each diagonal read is guarded by its file test only). -/
def pawnRankReads (board : Board) (color : Nat) (is_already_moved : Bool)
    (rank file : Int) : List Int :=
  if color = ptWHITE then
    [rank + 1] ++
    (if board (rank + 1) file == ptEMPTY then
      if !is_already_moved then [rank + 2] else []
    else []) ++
    (if file > 0 then [rank + 1] else []) ++
    (if file < 7 then [rank + 1] else [])
  else if color = ptBLACK then
    [rank - 1] ++
    (if board (rank - 1) file == ptEMPTY then
      if !is_already_moved then [rank - 2] else []
    else []) ++
    (if file > 0 then [rank - 1] else []) ++
    (if file < 7 then [rank - 1] else [])
  else []

/-- "Total" in the sense of claim C10: every recorded rank index lies in
`[0, 7]`. -/
def pawnReadsTotal (board : Board) (color : Nat) (is_already_moved : Bool)
    (rank file : Int) : Bool :=
  (pawnRankReads board color is_already_moved rank file).all
    fun r => decide (0 ≤ r) && decide (r < 8)

/-! ### Legality filter, special-move availability, move enumeration -/

/-- `ChessBoard.__is_legal_move(move)`: simulate the move on a deep copy of
`board_status` and ask the oracle for the mover's color.  The deep copy of
the source is the pure value semantics here: the live `board_status` of the
state is not part of the result. -/
def is_legal_move (st : GameState) (move : PieceMove) : Bool :=
  check_king_safety ((st.pieces move.piece_to_move).ptype &&& COLOR_MASK)
    (apply_move_to_board_status st.pieces move st.board_status)

/-- `ChessBoard.__get_item_from_square(rank, file)`.  The source resolves
the occupant through the graphics scene (`QGraphicsView.itemAt` on the
square's pixel rectangle, where each active piece item is drawn); the
embedding models that lookup as: the first active piece whose recorded
square is `(rank, file)`. -/
def get_item_from_square (st : GameState) (rank file : Int) : Option PieceId :=
  (st.active_white ++ st.active_black).find? fun pid =>
    (st.pieces pid).rank == rank && (st.pieces pid).file == file

/-- The `(_item_king, _item_rook, _square_between, _square_on_path)`
selection of `__is_castling_available`'s `match (turn, side)`.  A pair
outside the four cases leaves the locals unbound in the source (a crash);
the embedding returns `none`. -/
def castling_config (turn : Nat) (side : MoveType) :
    Option (PieceId × PieceId × List (Int × Int) × List (Int × Int)) :=
  if turn = ptWHITE ∧ side = MoveType.CASTLING_K then
    some (idWhiteKing, idWhiteRookH, [(0, 5), (0, 6)], [(0, 5), (0, 6)])
  else if turn = ptWHITE ∧ side = MoveType.CASTLING_Q then
    some (idWhiteKing, idWhiteRookA, [(0, 1), (0, 2), (0, 3)], [(0, 2), (0, 3)])
  else if turn = ptBLACK ∧ side = MoveType.CASTLING_K then
    some (idBlackKing, idBlackRookH, [(7, 5), (7, 6)], [(7, 5), (7, 6)])
  else if turn = ptBLACK ∧ side = MoveType.CASTLING_Q then
    some (idBlackKing, idBlackRookA, [(7, 1), (7, 2), (7, 3)], [(7, 2), (7, 3)])
  else
    none

/-- The `for _rank, _file in _square_on_path` loop of
`__is_castling_available`: place the king on the path square on the scratch
board, ask the oracle, then roll the two squares back before the next
iteration. -/
def castle_path_check (turn : Nat) (kingPt : Nat) (oldR oldF : Int) :
    Board → List (Int × Int) → Bool
  | _, [] => true
  | tmp, sq :: rest =>
    let tmp1 := setB (setB tmp oldR oldF ptEMPTY) sq.1 sq.2 kingPt
    if !check_king_safety turn tmp1 then
      false
    else
      castle_path_check turn kingPt oldR oldF
        (setB (setB tmp1 oldR oldF kingPt) sq.1 sq.2 ptEMPTY) rest

/-- `ChessBoard.__is_castling_available(turn, side)`. -/
def is_castling_available (st : GameState) (turn : Nat) (side : MoveType) : Bool :=
  match castling_config turn side with
  | none => false  -- source: UnboundLocalError (crash) outside the four cases
  | some (kingId, rookId, between, path) =>
    let king := st.pieces kingId
    let rook := st.pieces rookId
    if king.already_moved || rook.already_moved then
      false
    else if between.any (fun sq => st.board_status sq.1 sq.2 != ptEMPTY) then
      false
    else if !check_king_safety turn st.board_status then
      false
    else
      castle_path_check turn king.ptype king.rank king.file st.board_status path

/-- `ChessBoard.__is_en_passant_available(turn, rank, file)`.  Note: the
source checks only the *kind* of the last-moved piece, never its color. -/
def is_en_passant_available (st : GameState) (turn : Nat) (rank file : Int) : Bool :=
  let ep : Int := if turn = ptWHITE then 4 else 3
  match st.move_history.getLast? with
  | none => false
  | some lastMove =>
    let p := st.pieces lastMove.piece_to_move
    if p.kind == ptPAWN then
      decide (rank = ep) && decide (p.rank = ep) && ((file - p.file).natAbs == 1)
    else false

/-- The basic-move body of `__get_available_moves`: tag promotion, build the
candidate `PieceMove`, keep it only when `__is_legal_move` accepts (the
source's build-then-append-if-legal loop). -/
def basic_moves (st : GameState) (pid : PieceId) (color kind : Nat)
    (rank file : Int) (cand : List (Int × Int)) : List PieceMove :=
  cand.filterMap fun sq =>
    let is_promotion :=
      if kind = ptPAWN then
        if color = ptWHITE then sq.1 = 7 else sq.1 = 0
      else False
    let mv : PieceMove :=
      { piece_to_move := pid
        piece_in_capture := get_item_from_square st sq.1 sq.2
        piece_aux := none
        move_type := if is_promotion then MoveType.PROMOTION else MoveType.BASIC
        old_square := (rank, file)
        new_square := sq
        aux_square := none }
    if is_legal_move st mv then some mv else none

/-- `ChessBoard.__get_available_moves(piece)`: candidate squares per kind,
the legality filter over basic candidates, then the castling and en-passant
special cases.  Returns the source's boolean result together with the state
whose `avail_moves` field was assigned. -/
def get_available_moves (st : GameState) (pid : PieceId) : Bool × GameState :=
  let piece := st.pieces pid
  let color := piece.color
  let kind := piece.kind
  let rank := piece.rank
  let file := piece.file
  let cand : List (Int × Int) :=
    if kind = ptPAWN then
      get_squares_pawn st.board_status color piece.already_moved rank file
    else if kind = ptKNIGHT then
      get_squares_on_path st.board_status MoveDir.KNIGHT color rank file 2
    else if kind = ptBISHOP then
      get_squares_on_path st.board_status MoveDir.LEFTUP color rank file 8 ++
      get_squares_on_path st.board_status MoveDir.RIGHTUP color rank file 8 ++
      get_squares_on_path st.board_status MoveDir.LEFTDOWN color rank file 8 ++
      get_squares_on_path st.board_status MoveDir.RIGHTDOWN color rank file 8
    else if kind = ptROOK then
      get_squares_on_path st.board_status MoveDir.UP color rank file 8 ++
      get_squares_on_path st.board_status MoveDir.DOWN color rank file 8 ++
      get_squares_on_path st.board_status MoveDir.LEFT color rank file 8 ++
      get_squares_on_path st.board_status MoveDir.RIGHT color rank file 8
    else if kind = ptQUEEN then
      get_squares_on_path st.board_status MoveDir.UP color rank file 8 ++
      get_squares_on_path st.board_status MoveDir.DOWN color rank file 8 ++
      get_squares_on_path st.board_status MoveDir.LEFT color rank file 8 ++
      get_squares_on_path st.board_status MoveDir.RIGHT color rank file 8 ++
      get_squares_on_path st.board_status MoveDir.LEFTUP color rank file 8 ++
      get_squares_on_path st.board_status MoveDir.RIGHTUP color rank file 8 ++
      get_squares_on_path st.board_status MoveDir.LEFTDOWN color rank file 8 ++
      get_squares_on_path st.board_status MoveDir.RIGHTDOWN color rank file 8
    else if kind = ptKING then
      get_squares_on_path st.board_status MoveDir.UP color rank file 1 ++
      get_squares_on_path st.board_status MoveDir.DOWN color rank file 1 ++
      get_squares_on_path st.board_status MoveDir.LEFT color rank file 1 ++
      get_squares_on_path st.board_status MoveDir.RIGHT color rank file 1 ++
      get_squares_on_path st.board_status MoveDir.LEFTUP color rank file 1 ++
      get_squares_on_path st.board_status MoveDir.RIGHTUP color rank file 1 ++
      get_squares_on_path st.board_status MoveDir.LEFTDOWN color rank file 1 ++
      get_squares_on_path st.board_status MoveDir.RIGHTDOWN color rank file 1
    else []
  let avail0 := basic_moves st pid color kind rank file cand
  let avail1 :=
    if kind = ptKING then
      let withK :=
        if is_castling_available st color MoveType.CASTLING_K then
          let rookId := if color = ptWHITE then idWhiteRookH else idBlackRookH
          let rook := st.pieces rookId
          avail0 ++
            [{ piece_to_move := pid
               piece_in_capture := none
               piece_aux := some rookId
               move_type := MoveType.CASTLING_K
               old_square := (rank, file)
               new_square := (rank, file + 2)
               aux_square := some [(rook.rank, rook.file), (rank, file + 1)] }]
        else avail0
      if is_castling_available st color MoveType.CASTLING_Q then
        let rookId := if color = ptWHITE then idWhiteRookA else idBlackRookA
        let rook := st.pieces rookId
        withK ++
          [{ piece_to_move := pid
             piece_in_capture := none
             piece_aux := some rookId
             move_type := MoveType.CASTLING_Q
             old_square := (rank, file)
             new_square := (rank, file - 2)
             aux_square := some [(rook.rank, rook.file), (rook.rank, file - 1)] }]
      else withK
    else avail0
  let avail2 :=
    if kind = ptPAWN then
      if is_en_passant_available st color rank file then
        match st.move_history.getLast? with
        | none => avail1  -- unreachable: availability requires a history entry
        | some lastMove =>
          let capturedId := lastMove.piece_to_move
          let captured := st.pieces capturedId
          let epMove : PieceMove :=
            { piece_to_move := pid
              piece_in_capture := some capturedId
              piece_aux := none
              move_type := MoveType.EN_PASSANT
              old_square := (rank, file)
              new_square :=
                if color = ptWHITE then (rank + 1, captured.file)
                else (rank - 1, captured.file)
              aux_square := some [(captured.rank, captured.file)] }
          if is_legal_move st epMove then avail1 ++ [epMove] else avail1
      else avail1
    else avail1
  (avail2.length > 0, { st with avail_moves := avail2 })

/-! ### Turn handling, game-over detection, move processing -/

/-- `ChessBoard.__hand_player_turn` (the `turnChanged` signal is
rendering-side). -/
def hand_player_turn (st : GameState) : GameState :=
  { st with turn := if st.turn = ptWHITE then ptBLACK else ptWHITE }

/-- `ChessBoard.__is_check_state`. -/
def is_check_state (st : GameState) : Bool :=
  !check_king_safety st.turn st.board_status

/-- The `for _piece in self.active_*_piece` accumulation of
`__is_no_avail_move`: `_avail_move_exist |= self.__get_available_moves(_piece)`,
threading the state (each call reassigns `avail_moves`). -/
def avail_scan (init : Bool) : GameState → List PieceId → Bool × GameState
  | st, [] => (init, st)
  | st, pid :: rest =>
    let res := get_available_moves st pid
    avail_scan (init || res.1) res.2 rest

/-- `ChessBoard.__is_no_avail_move`.  A turn value other than `WHITE` /
`BLACK` makes the source print an error and `exit()`; the embedded function
returns `(true, st)` on that (dead) branch. -/
def is_no_avail_move (st : GameState) : Bool × GameState :=
  if st.turn = ptWHITE then
    let res := avail_scan false st st.active_white
    (!res.1, res.2)
  else if st.turn = ptBLACK then
    let res := avail_scan false st st.active_black
    (!res.1, res.2)
  else
    (true, st)  -- source: error + exit()

/-- `ChessBoard.__check_game_over`: checkmate (`gameOverWin` with
`turn ^ COLOR_MASK`), stalemate (`gameOverTie`), or the silent `else`. -/
def check_game_over (st : GameState) : GameOutcome × GameState :=
  let isCheck := is_check_state st
  let res := is_no_avail_move st
  if isCheck && res.1 then
    (GameOutcome.win (st.turn ^^^ COLOR_MASK), res.2)
  else if !isCheck && res.1 then
    (GameOutcome.tie, res.2)
  else
    (GameOutcome.ongoing, res.2)

/-- Update one entry of the piece map. -/
def setPiece (pieces : PieceId → Piece) (pid : PieceId) (p : Piece) :
    PieceId → Piece :=
  fun i => if i = pid then p else pieces i

/-- `ChessBoard.__update_piece_status(move)`: mark the mover moved and
re-square it; deactivate a captured piece (removing it from its color's
active list — `list.remove`, first occurrence); for castling, do the same
square/flag update on the auxiliary rook.  A castling move without an
auxiliary piece or with a short auxiliary-square list crashes the source;
the embedding leaves the state unchanged on that (dead) branch. -/
def update_piece_status (st : GameState) (move : PieceMove) : GameState :=
  let mover := st.pieces move.piece_to_move
  let st1 := { st with
    pieces := setPiece st.pieces move.piece_to_move
      { mover with already_moved := true,
                   rank := move.new_square.1, file := move.new_square.2 } }
  let st2 :=
    match move.piece_in_capture with
    | none => st1
    | some cid =>
      if (st1.pieces cid).color = ptWHITE then
        { st1 with active_white := st1.active_white.erase cid }
      else if (st1.pieces cid).color = ptBLACK then
        { st1 with active_black := st1.active_black.erase cid }
      else st1  -- unreachable: the color mask yields only WHITE/BLACK (source: exit())
  if move.move_type = MoveType.CASTLING_K ∨ move.move_type = MoveType.CASTLING_Q then
    match move.piece_aux, move.aux_square with
    | some aid, some (_ :: auxNew :: _) =>
      let aux := st2.pieces aid
      { st2 with
        pieces := setPiece st2.pieces aid
          { aux with already_moved := true,
                     rank := auxNew.1, file := auxNew.2 } }
    | _, _ => st2  -- source: crash
  else st2

/-- `ChessBoard.__update_board_status(move)`. -/
def update_board_status (st : GameState) (move : PieceMove) : GameState :=
  { st with board_status := apply_move_to_board_status st.pieces move st.board_status }

/-- `ChessPiece.Promote(piecetype)`: a non-pawn is left untouched; a pawn's
packed type becomes `color | piecetype`. -/
def promote (p : Piece) (piecetype : Nat) : Piece :=
  if p.kind ≠ ptPAWN then p
  else { p with ptype := p.color ||| piecetype }

/-- `ChessBoard.__process_after_move` (the slot the move animation's
timeline fires): read the last history entry, commit the piece and board
updates, then — except for a promotion move, which defers them — hand the
turn and run the game-over check.  `some outcome` is that check's verdict,
`none` the promotion-pending early return.  The source's line
`self.__promotion_mode == True` is a comparison statement, not an
assignment, so the flag is (faithfully) not set here.  An empty history
would crash the source (`[-1]`); the embedding returns the state
unchanged. -/
def process_after_move (st : GameState) : GameState × Option GameOutcome :=
  match st.move_history.getLast? with
  | none => (st, none)  -- source: IndexError
  | some lastMove =>
    let st1 := update_piece_status st lastMove
    let st2 := update_board_status st1 lastMove
    if lastMove.move_type = MoveType.PROMOTION then
      (st2, none)
    else
      let st3 := hand_player_turn st2
      let res := check_game_over st3
      (res.2, some res.1)

/-- `ChessBoard.promotionItemClickHandler`, after the pixel arithmetic: `n`
is the clicked slot (`0` queen, `1` rook, `2` bishop, `3` knight; any other
value falls through the `match` without promoting, as in the source).
Promotes the last-moved pawn, writes its (new) packed type to its square,
leaves promotion mode, hands the turn and runs the game-over check.  An
empty history would crash the source; the embedding returns `ongoing` with
the state unchanged. -/
def promotion_item_click (st : GameState) (n : Nat) : GameState × GameOutcome :=
  match st.move_history.getLast? with
  | none => (st, GameOutcome.ongoing)  -- source: IndexError
  | some lastMove =>
    let pid := lastMove.piece_to_move
    let pawn := st.pieces pid
    let choice : Option Nat :=
      match n with
      | 0 => some ptQUEEN
      | 1 => some ptROOK
      | 2 => some ptBISHOP
      | 3 => some ptKNIGHT
      | _ => none
    let st1 :=
      match choice with
      | some k => { st with pieces := setPiece st.pieces pid (promote pawn k) }
      | none => st
    let p := st1.pieces pid
    let st2 := { st1 with
      board_status := setB st1.board_status p.rank p.file p.ptype,
      promotion_mode := false }
    let st3 := hand_player_turn st2
    let res := check_game_over st3
    (res.2, res.1)

/-! ### Click handling (square level) -/

/-- `ChessBoard.__free_focus` (highlight removal is rendering-side). -/
def free_focus (st : GameState) : GameState :=
  { st with is_in_focus := false, piece_in_focus := none }

/-- `ChessBoard.__find_available_move(rank, file)`. -/
def find_available_move (st : GameState) (rank file : Int) : Option PieceMove :=
  if st.is_in_focus = false then none
  else if (rank, file) = ((-1 : Int), (-1 : Int)) then none
  else st.avail_moves.find? fun mv => mv.new_square = (rank, file)

/-- `ChessBoard.__process_move(move)`: record the move in the history and
start the animation whose `finished` slot is `__process_after_move` (the
board/piece commits happen there). -/
def process_move (st : GameState) (move : PieceMove) : GameState :=
  { st with move_history := st.move_history ++ [move] }

/-- `ChessBoard.boardClickHandler`, embedded at the square level (after
`__get_square_from_pos`, whose boundary result is `(-1, -1)`): ignore input
in promotion mode; otherwise process the available move matching the square
if there is one, and free the focus. -/
def board_click (st : GameState) (rank file : Int) : GameState :=
  if st.promotion_mode then st
  else
    let st1 :=
      if st.is_in_focus then
        match find_available_move st rank file with
        | some mv => process_move st mv
        | none => st
      else st
    free_focus st1

/-! ### Specification-side attack geometry (claims C1 / C5)

These predicates restate the claimed attack geometry directly: along a ray,
the *first non-empty square* (every earlier square empty, every visited
square on the board) holds an enemy piece of an attacking kind; a knight
offset square holds an enemy knight.  They are written from the claim text,
to be compared with the translated oracle. -/

/-- The square `(r, f)` is on the 8×8 board. -/
def inB (r f : Int) : Prop := 0 ≤ r ∧ r < 8 ∧ 0 ≤ f ∧ f < 8

instance (r f : Int) : Decidable (inB r f) := by
  unfold inB; infer_instance

/-- Occupancy value `p` is an enemy piece from `turn`'s viewpoint. -/
def isEnemy (turn p : Nat) : Prop := p ≠ ptEMPTY ∧ p &&& COLOR_MASK ≠ turn

instance (turn p : Nat) : Decidable (isEnemy turn p) := by
  unfold isEnemy; infer_instance

/-- Step `k ≥ 1` of the ray from `(kr, kf)` in direction `(dr, df)` is the
first non-empty square: every step up to `k` is on the board and every step
before `k` is empty. -/
def firstHit (board : Board) (kr kf dr df : Int) (k : Nat) : Prop :=
  1 ≤ k ∧
  (∀ i : Nat, 1 ≤ i → i ≤ k → inB (kr + (i : Int) * dr) (kf + (i : Int) * df)) ∧
  (∀ i : Nat, 1 ≤ i → i < k → board (kr + (i : Int) * dr) (kf + (i : Int) * df) = ptEMPTY)

def orthDirs : List (Int × Int) := [(1, 0), (-1, 0), (0, -1), (0, 1)]
def diagDirs : List (Int × Int) := [(1, -1), (1, 1), (-1, -1), (-1, 1)]

/-- An enemy pawn one step along a diagonal whose rank component is `dr`
captures toward `turn`'s king: Black pawns capture downward (so they sit one
rank *above* a White king), White pawns upward. -/
def pawnCapturesToward (turn : Nat) (dr : Int) : Prop :=
  (turn = ptWHITE ∧ dr = 1) ∨ (turn = ptBLACK ∧ dr = -1)

/-- Claimed attack geometry at the king square `(kr, kf)`:  an orthogonal
first hit that is an enemy rook/queen (or a king at distance 1), a diagonal
first hit that is an enemy bishop/queen (or, at distance 1, a king or a pawn
positioned to capture toward this king), or an enemy knight on a knight
offset. -/
def specAttacked (turn : Nat) (board : Board) (kr kf : Int) : Prop :=
  (∃ d ∈ orthDirs, ∃ k : Nat,
    firstHit board kr kf d.1 d.2 k ∧
    isEnemy turn (board (kr + (k : Int) * d.1) (kf + (k : Int) * d.2)) ∧
    (getPieceKind (board (kr + (k : Int) * d.1) (kf + (k : Int) * d.2)) = ptROOK ∨
     getPieceKind (board (kr + (k : Int) * d.1) (kf + (k : Int) * d.2)) = ptQUEEN ∨
     (k = 1 ∧ getPieceKind (board (kr + (k : Int) * d.1) (kf + (k : Int) * d.2)) = ptKING))) ∨
  (∃ d ∈ diagDirs, ∃ k : Nat,
    firstHit board kr kf d.1 d.2 k ∧
    isEnemy turn (board (kr + (k : Int) * d.1) (kf + (k : Int) * d.2)) ∧
    (getPieceKind (board (kr + (k : Int) * d.1) (kf + (k : Int) * d.2)) = ptBISHOP ∨
     getPieceKind (board (kr + (k : Int) * d.1) (kf + (k : Int) * d.2)) = ptQUEEN ∨
     (k = 1 ∧
      (getPieceKind (board (kr + (k : Int) * d.1) (kf + (k : Int) * d.2)) = ptKING ∨
       (getPieceKind (board (kr + (k : Int) * d.1) (kf + (k : Int) * d.2)) = ptPAWN ∧
        pawnCapturesToward turn d.1))))) ∨
  (∃ l ∈ knightLeaps, inB (kr + l.1) (kf + l.2) ∧
    isEnemy turn (board (kr + l.1) (kf + l.2)) ∧
    getPieceKind (board (kr + l.1) (kf + l.2)) = ptKNIGHT)

/-- Occupancy value `p` is `turn`'s king. -/
def isKingOf (turn p : Nat) : Prop :=
  getPieceColor p = turn ∧ getPieceKind p = ptKING

instance (turn p : Nat) : Decidable (isKingOf turn p) := by
  unfold isKingOf; infer_instance

/-- `turn`'s unique king stands on `(kr, kf)` (decidably quantified over the
64 squares). -/
def uniqueKingAt (turn : Nat) (board : Board) (kr kf : Int) : Prop :=
  inB kr kf ∧ isKingOf turn (board kr kf) ∧
  ∀ r : Nat, r < 8 → ∀ f : Nat, f < 8 →
    isKingOf turn (board (r : Int) (f : Int)) → ((r : Int), (f : Int)) = (kr, kf)

instance (turn : Nat) (board : Board) (kr kf : Int) :
    Decidable (uniqueKingAt turn board kr kf) := by
  unfold uniqueKingAt; infer_instance

/-! ### Characterizing one ray walk -/

theorem scanRayAux_eq_true_iff (board : Board) (turn : Nat) (kr kf dr df : Int)
    (cond : Int → Int → Bool) (attackKinds : Nat → List Nat) :
    ∀ (fuel j : Nat),
      scanRayAux board turn kr kf dr df cond attackKinds j fuel = true ↔
      ∃ k : Nat, j ≤ k ∧ k < j + fuel ∧
        (∀ i : Nat, j ≤ i → i ≤ k → cond (kr + (i : Int) * dr) (kf + (i : Int) * df) = true) ∧
        (∀ i : Nat, j ≤ i → i < k → board (kr + (i : Int) * dr) (kf + (i : Int) * df) = ptEMPTY) ∧
        isEnemy turn (board (kr + (k : Int) * dr) (kf + (k : Int) * df)) ∧
        getPieceKind (board (kr + (k : Int) * dr) (kf + (k : Int) * df)) ∈ attackKinds k := by
  intro fuel
  induction fuel with
  | zero =>
    intro j
    simp only [scanRayAux]
    constructor
    · intro h; exact absurd h (by simp)
    · rintro ⟨k, hjk, hlt, -⟩; omega
  | succ fuel ih =>
    intro j
    rw [scanRayAux]
    by_cases hcond : cond (kr + (j : Int) * dr) (kf + (j : Int) * df) = true
    · rw [if_pos hcond]
      by_cases hemp : board (kr + (j : Int) * dr) (kf + (j : Int) * df) = ptEMPTY
      · have hbe : ptIsEmpty (board (kr + (j : Int) * dr) (kf + (j : Int) * df)) = true := by
          simp [ptIsEmpty, hemp]
        rw [if_pos hbe, ih (j + 1)]
        constructor
        · rintro ⟨k, hjk, hlt, hc, he, hen, hkind⟩
          refine ⟨k, by omega, by omega, ?_, ?_, hen, hkind⟩
          · intro i hji hik
            rcases Nat.eq_or_lt_of_le hji with h | h
            · subst h; exact hcond
            · exact hc i h hik
          · intro i hji hik
            rcases Nat.eq_or_lt_of_le hji with h | h
            · subst h; exact hemp
            · exact he i h hik
        · rintro ⟨k, hjk, hlt, hc, he, hen, hkind⟩
          have hkj : j < k := by
            rcases Nat.eq_or_lt_of_le hjk with h | h
            · subst h; exact absurd hemp hen.1
            · exact h
          refine ⟨k, by omega, by omega, ?_, ?_, hen, hkind⟩
          · intro i hji hik; exact hc i (by omega) hik
          · intro i hji hik; exact he i (by omega) hik
      · have hbe : ptIsEmpty (board (kr + (j : Int) * dr) (kf + (j : Int) * df)) = false := by
          simp [ptIsEmpty, hemp]
        rw [if_neg (by simp [hbe])]
        by_cases hmy : isMyPiece (board (kr + (j : Int) * dr) (kf + (j : Int) * df)) turn = true
        · rw [if_pos hmy]
          constructor
          · intro h; exact absurd h (by simp)
          · rintro ⟨k, hjk, hlt, hc, he, hen, hkind⟩
            rcases Nat.eq_or_lt_of_le hjk with h | h
            · subst h
              have : board (kr + (j : Int) * dr) (kf + (j : Int) * df) &&& COLOR_MASK = turn := by
                simpa [isMyPiece, getPieceColor] using hmy
              exact absurd this hen.2
            · exact absurd (he j le_rfl h) hemp
        · rw [if_neg hmy]
          simp only [decide_eq_true_eq]
          constructor
          · intro hkind
            refine ⟨j, le_rfl, by omega, ?_, ?_, ⟨hemp, ?_⟩, hkind⟩
            · intro i hji hij
              have : i = j := le_antisymm hij hji
              subst this; exact hcond
            · intro i hji hij; omega
            · intro hcol
              exact hmy (by simp [isMyPiece, getPieceColor, hcol])
          · rintro ⟨k, hjk, hlt, hc, he, hen, hkind⟩
            rcases Nat.eq_or_lt_of_le hjk with h | h
            · subst h; exact hkind
            · exact absurd (he j le_rfl h) hemp
    · rw [if_neg hcond]
      constructor
      · intro h; exact absurd h (by simp)
      · rintro ⟨k, hjk, hlt, hc, -, -, -⟩
        exact (hcond (hc j le_rfl hjk)).elim

/-- Ray-walk characterization with the loop condition replaced by the
on-board predicate, under hypotheses (discharged per direction) that the
two agree along the ray and that the board is left within 8 steps. -/
theorem scanRay_eq_true_iff (board : Board) (turn : Nat) (kr kf dr df : Int)
    (cond : Int → Int → Bool) (attackKinds : Nat → List Nat)
    (hcond : ∀ i : Nat, 1 ≤ i →
      (cond (kr + (i : Int) * dr) (kf + (i : Int) * df) = true ↔
        inB (kr + (i : Int) * dr) (kf + (i : Int) * df)))
    (hbound : ∀ k : Nat, inB (kr + (k : Int) * dr) (kf + (k : Int) * df) → k < 9) :
    scanRay board turn kr kf dr df cond attackKinds = true ↔
      ∃ k : Nat, firstHit board kr kf dr df k ∧
        isEnemy turn (board (kr + (k : Int) * dr) (kf + (k : Int) * df)) ∧
        getPieceKind (board (kr + (k : Int) * dr) (kf + (k : Int) * df)) ∈ attackKinds k := by
  rw [scanRay, scanRayAux_eq_true_iff]
  constructor
  · rintro ⟨k, h1, h9, hc, he, hen, hkind⟩
    exact ⟨k, ⟨h1, fun i hi hik => (hcond i hi).mp (hc i hi hik), he⟩, hen, hkind⟩
  · rintro ⟨k, ⟨h1, hin, he⟩, hen, hkind⟩
    have hk9 : k < 9 := hbound k (hin k h1 le_rfl)
    exact ⟨k, h1, by omega, fun i hi hik => (hcond i hi).mpr (hin i hi hik), he, hen, hkind⟩

/-! ### Per-direction ray characterizations -/

/-- Orthogonal first-hit clause of `specAttacked` for direction `(dr, df)`. -/
def orthHit (board : Board) (turn : Nat) (kr kf dr df : Int) (k : Nat) : Prop :=
  firstHit board kr kf dr df k ∧
  isEnemy turn (board (kr + (k : Int) * dr) (kf + (k : Int) * df)) ∧
  (getPieceKind (board (kr + (k : Int) * dr) (kf + (k : Int) * df)) = ptROOK ∨
   getPieceKind (board (kr + (k : Int) * dr) (kf + (k : Int) * df)) = ptQUEEN ∨
   (k = 1 ∧ getPieceKind (board (kr + (k : Int) * dr) (kf + (k : Int) * df)) = ptKING))

/-- Diagonal first-hit clause of `specAttacked` for direction `(dr, df)`. -/
def diagHit (board : Board) (turn : Nat) (kr kf dr df : Int) (k : Nat) : Prop :=
  firstHit board kr kf dr df k ∧
  isEnemy turn (board (kr + (k : Int) * dr) (kf + (k : Int) * df)) ∧
  (getPieceKind (board (kr + (k : Int) * dr) (kf + (k : Int) * df)) = ptBISHOP ∨
   getPieceKind (board (kr + (k : Int) * dr) (kf + (k : Int) * df)) = ptQUEEN ∨
   (k = 1 ∧
    (getPieceKind (board (kr + (k : Int) * dr) (kf + (k : Int) * df)) = ptKING ∨
     (getPieceKind (board (kr + (k : Int) * dr) (kf + (k : Int) * df)) = ptPAWN ∧
      pawnCapturesToward turn dr))))

theorem mem_orthKinds {g : Nat} {k : Nat} :
    g ∈ orthKinds k ↔ (g = ptROOK ∨ g = ptQUEEN ∨ (k = 1 ∧ g = ptKING)) := by
  by_cases h : k = 1 <;> simp [orthKinds, h]

theorem pawnCapturesToward_up {turn : Nat} :
    pawnCapturesToward turn 1 ↔ turn = ptWHITE := by
  unfold pawnCapturesToward
  constructor
  · rintro (⟨h, -⟩ | ⟨-, h⟩)
    · exact h
    · exact absurd h (by decide)
  · intro h; exact Or.inl ⟨h, rfl⟩

theorem pawnCapturesToward_down {turn : Nat} :
    pawnCapturesToward turn (-1) ↔ turn = ptBLACK := by
  unfold pawnCapturesToward
  constructor
  · rintro (⟨-, h⟩ | ⟨h, -⟩)
    · exact absurd h (by decide)
    · exact h
  · intro h; exact Or.inr ⟨h, rfl⟩

theorem mem_diagKindsUp {turn g : Nat} {k : Nat} :
    g ∈ diagKindsUp turn k ↔
      (g = ptBISHOP ∨ g = ptQUEEN ∨
        (k = 1 ∧ (g = ptKING ∨ (g = ptPAWN ∧ pawnCapturesToward turn 1)))) := by
  rw [pawnCapturesToward_up]
  by_cases h : k = 1
  · by_cases ht : turn = ptWHITE <;> simp [diagKindsUp, h, ht]
  · simp [diagKindsUp, h]

theorem mem_diagKindsDown {turn g : Nat} {k : Nat} :
    g ∈ diagKindsDown turn k ↔
      (g = ptBISHOP ∨ g = ptQUEEN ∨
        (k = 1 ∧ (g = ptKING ∨ (g = ptPAWN ∧ pawnCapturesToward turn (-1))))) := by
  rw [pawnCapturesToward_down]
  by_cases h : k = 1
  · by_cases ht : turn = ptBLACK <;> simp [diagKindsDown, h, ht]
  · simp [diagKindsDown, h]

theorem scanUp_iff {board : Board} {turn : Nat} {kr kf : Int} (h : inB kr kf) :
    scanUp board turn kr kf = true ↔ ∃ k : Nat, orthHit board turn kr kf 1 0 k := by
  obtain ⟨h1, h2, h3, h4⟩ := h
  rw [scanUp, scanRay_eq_true_iff]
  · exact exists_congr fun k => by rw [orthHit, mem_orthKinds]
  · intro i hi
    simp only [mul_one, mul_zero, add_zero, decide_eq_true_eq]
    unfold inB; omega
  · intro k hk
    simp only [mul_one, mul_zero, add_zero] at hk
    obtain ⟨-, hx, -, -⟩ := hk; omega

theorem scanDown_iff {board : Board} {turn : Nat} {kr kf : Int} (h : inB kr kf) :
    scanDown board turn kr kf = true ↔ ∃ k : Nat, orthHit board turn kr kf (-1) 0 k := by
  obtain ⟨h1, h2, h3, h4⟩ := h
  rw [scanDown, scanRay_eq_true_iff]
  · exact exists_congr fun k => by rw [orthHit, mem_orthKinds]
  · intro i hi
    simp only [mul_neg_one, mul_zero, add_zero, decide_eq_true_eq]
    unfold inB; omega
  · intro k hk
    simp only [mul_neg_one, mul_zero, add_zero] at hk
    obtain ⟨hx, -, -, -⟩ := hk; omega

theorem scanLeft_iff {board : Board} {turn : Nat} {kr kf : Int} (h : inB kr kf) :
    scanLeft board turn kr kf = true ↔ ∃ k : Nat, orthHit board turn kr kf 0 (-1) k := by
  obtain ⟨h1, h2, h3, h4⟩ := h
  rw [scanLeft, scanRay_eq_true_iff]
  · exact exists_congr fun k => by rw [orthHit, mem_orthKinds]
  · intro i hi
    simp only [mul_neg_one, mul_zero, add_zero, decide_eq_true_eq]
    unfold inB; omega
  · intro k hk
    simp only [mul_neg_one, mul_zero, add_zero] at hk
    obtain ⟨-, -, hx, -⟩ := hk; omega

theorem scanRight_iff {board : Board} {turn : Nat} {kr kf : Int} (h : inB kr kf) :
    scanRight board turn kr kf = true ↔ ∃ k : Nat, orthHit board turn kr kf 0 1 k := by
  obtain ⟨h1, h2, h3, h4⟩ := h
  rw [scanRight, scanRay_eq_true_iff]
  · exact exists_congr fun k => by rw [orthHit, mem_orthKinds]
  · intro i hi
    simp only [mul_one, mul_zero, add_zero, decide_eq_true_eq]
    unfold inB; omega
  · intro k hk
    simp only [mul_one, mul_zero, add_zero] at hk
    obtain ⟨-, -, -, hx⟩ := hk; omega

theorem scanLeftUp_iff {board : Board} {turn : Nat} {kr kf : Int} (h : inB kr kf) :
    scanLeftUp board turn kr kf = true ↔ ∃ k : Nat, diagHit board turn kr kf 1 (-1) k := by
  obtain ⟨h1, h2, h3, h4⟩ := h
  rw [scanLeftUp, scanRay_eq_true_iff]
  · exact exists_congr fun k => by rw [diagHit, mem_diagKindsUp]
  · intro i hi
    simp only [mul_one, mul_neg_one, Bool.and_eq_true, decide_eq_true_eq]
    unfold inB; omega
  · intro k hk
    simp only [mul_one, mul_neg_one] at hk
    obtain ⟨-, hx, -, -⟩ := hk; omega

theorem scanRightUp_iff {board : Board} {turn : Nat} {kr kf : Int} (h : inB kr kf) :
    scanRightUp board turn kr kf = true ↔ ∃ k : Nat, diagHit board turn kr kf 1 1 k := by
  obtain ⟨h1, h2, h3, h4⟩ := h
  rw [scanRightUp, scanRay_eq_true_iff]
  · exact exists_congr fun k => by rw [diagHit, mem_diagKindsUp]
  · intro i hi
    simp only [mul_one, Bool.and_eq_true, decide_eq_true_eq]
    unfold inB; omega
  · intro k hk
    simp only [mul_one] at hk
    obtain ⟨-, hx, -, -⟩ := hk; omega

theorem scanLeftDown_iff {board : Board} {turn : Nat} {kr kf : Int} (h : inB kr kf) :
    scanLeftDown board turn kr kf = true ↔ ∃ k : Nat, diagHit board turn kr kf (-1) (-1) k := by
  obtain ⟨h1, h2, h3, h4⟩ := h
  rw [scanLeftDown, scanRay_eq_true_iff]
  · exact exists_congr fun k => by rw [diagHit, mem_diagKindsDown]
  · intro i hi
    simp only [mul_neg_one, Bool.and_eq_true, decide_eq_true_eq]
    unfold inB; omega
  · intro k hk
    simp only [mul_neg_one] at hk
    obtain ⟨hx, -, -, -⟩ := hk; omega

theorem scanRightDown_iff {board : Board} {turn : Nat} {kr kf : Int} (h : inB kr kf) :
    scanRightDown board turn kr kf = true ↔ ∃ k : Nat, diagHit board turn kr kf (-1) 1 k := by
  obtain ⟨h1, h2, h3, h4⟩ := h
  rw [scanRightDown, scanRay_eq_true_iff]
  · exact exists_congr fun k => by rw [diagHit, mem_diagKindsDown]
  · intro i hi
    simp only [mul_neg_one, mul_one, Bool.and_eq_true, decide_eq_true_eq]
    unfold inB; omega
  · intro k hk
    simp only [mul_neg_one, mul_one] at hk
    obtain ⟨hx, -, -, -⟩ := hk; omega

/-- Knight-offset clause of `specAttacked`. -/
def knightHit (board : Board) (turn : Nat) (kr kf : Int) : Prop :=
  ∃ l ∈ knightLeaps, inB (kr + l.1) (kf + l.2) ∧
    isEnemy turn (board (kr + l.1) (kf + l.2)) ∧
    getPieceKind (board (kr + l.1) (kf + l.2)) = ptKNIGHT

theorem knightAttack_iff {board : Board} {turn : Nat} {kr kf : Int} :
    knightAttack board turn kr kf = true ↔ knightHit board turn kr kf := by
  rw [knightAttack, knightHit, List.any_eq_true]
  refine exists_congr fun l => and_congr_right fun _ => ?_
  by_cases hb : ((0 : Int) ≤ kr + l.1 && kr + l.1 < 8 && 0 ≤ kf + l.2 && kf + l.2 < 8) = true
  · rw [if_pos hb]
    simp only [Bool.and_eq_true, decide_eq_true_eq] at hb
    simp only [Bool.and_eq_true, beq_iff_eq, isOpponentPiece, getPieceColor, bne_iff_ne]
    constructor
    · rintro ⟨hcol, hkind⟩
      refine ⟨⟨hb.1.1.1, hb.1.1.2, hb.1.2, hb.2⟩, ⟨?_, hcol⟩, hkind⟩
      intro hz
      rw [hz] at hkind
      exact absurd hkind (by decide)
    · rintro ⟨-, ⟨-, hcol⟩, hkind⟩
      exact ⟨hcol, hkind⟩
  · rw [if_neg hb]
    simp only [Bool.and_eq_true, decide_eq_true_eq] at hb
    constructor
    · intro h; exact absurd h (by simp)
    · rintro ⟨hin, -, -⟩
      exact absurd ⟨⟨⟨hin.1, hin.2.1⟩, hin.2.2.1⟩, hin.2.2.2⟩ hb

/-! ### Locating the king -/

theorem find_king_file_eq_none {board : Board} {turn : Nat} {kr kf : Int}
    (huniq : uniqueKingAt turn board kr kf) {r : Nat} (hr : r < 8)
    (hne : (r : Int) ≠ kr) : find_king_file board turn (r : Int) = none := by
  rw [find_king_file]
  apply List.find?_eq_none.mpr
  intro f hf hpred
  simp only [List.mem_range] at hf
  simp only [Bool.and_eq_true, beq_iff_eq] at hpred
  have := huniq.2.2 r hr f hf ⟨hpred.1, hpred.2⟩
  exact hne (congrArg Prod.fst this)

theorem find_king_file_eq_some {board : Board} {turn : Nat} {kr kf : Int}
    (huniq : uniqueKingAt turn board kr kf) :
    ∃ g : Nat, find_king_file board turn kr = some g ∧ (g : Int) = kf := by
  obtain ⟨⟨hkr0, hkr8, hkf0, hkf8⟩, hking, huni⟩ := huniq
  have hkfn : ((kf.toNat : Nat) : Int) = kf := Int.toNat_of_nonneg hkf0
  have hmem : kf.toNat ∈ List.range 8 := by
    simp only [List.mem_range]; omega
  have hpred : (getPieceColor (board kr ((kf.toNat : Nat) : Int)) == turn &&
      getPieceKind (board kr ((kf.toNat : Nat) : Int)) == ptKING) = true := by
    rw [hkfn]
    simp only [Bool.and_eq_true, beq_iff_eq]
    exact ⟨hking.1, hking.2⟩
  have hns : find_king_file board turn kr ≠ none := by
    intro hnone
    exact absurd hpred (by simpa using List.find?_eq_none.mp hnone kf.toNat hmem)
  obtain ⟨g, hg⟩ := Option.ne_none_iff_exists'.mp hns
  have hgmem : g ∈ List.range 8 := List.mem_of_find?_eq_some hg
  have hgpred := List.find?_some hg
  simp only [List.mem_range] at hgmem
  simp only [Bool.and_eq_true, beq_iff_eq] at hgpred
  have hkrn : ((kr.toNat : Nat) : Int) = kr := Int.toNat_of_nonneg hkr0
  have := huni kr.toNat (by omega) g hgmem (by rw [hkrn]; exact ⟨hgpred.1, hgpred.2⟩)
  refine ⟨g, hg, ?_⟩
  exact congrArg Prod.snd this

theorem kingFold_all_none {h : Nat → Option Nat} :
    ∀ (l : List Nat) (init : Int × Int), (∀ y ∈ l, h y = none) →
      l.foldl (fun acc r =>
        match h r with
        | some f => ((r : Int), (f : Int))
        | none => acc) init = init := by
  intro l
  induction l with
  | nil => intro init _; rfl
  | cons a rest ih =>
    intro init hall
    have ha : h a = none := hall a (List.mem_cons_self a rest)
    simp only [List.foldl_cons, ha]
    exact ih init fun y hy => hall y (List.mem_cons_of_mem a hy)

theorem kingFold_unique {h : Nat → Option Nat} {x v : Nat} :
    ∀ (l : List Nat) (init : Int × Int), x ∈ l → h x = some v →
      (∀ y ∈ l, y ≠ x → h y = none) →
      l.foldl (fun acc r =>
        match h r with
        | some f => ((r : Int), (f : Int))
        | none => acc) init = ((x : Int), (v : Int)) := by
  intro l
  induction l with
  | nil => intro init hmem; exact absurd hmem (List.not_mem_nil x)
  | cons a rest ih =>
    intro init hmem hx hnone
    by_cases hax : a = x
    · subst hax
      simp only [List.foldl_cons, hx]
      by_cases hrest : a ∈ rest
      · exact ih _ hrest hx fun y hy hne => hnone y (List.mem_cons_of_mem a hy) hne
      · apply kingFold_all_none
        intro y hy
        have : y ≠ a := fun he => hrest (he ▸ hy)
        exact hnone y (List.mem_cons_of_mem a hy) this
    · have ha : h a = none := hnone a (List.mem_cons_self a rest) hax
      simp only [List.foldl_cons, ha]
      have : x ∈ rest := by
        rcases List.mem_cons.mp hmem with h | h
        · exact absurd h.symm hax
        · exact h
      exact ih init this hx fun y hy hne => hnone y (List.mem_cons_of_mem a hy) hne

theorem find_king_eq {board : Board} {turn : Nat} {kr kf : Int}
    (huniq : uniqueKingAt turn board kr kf) : find_king turn board = (kr, kf) := by
  obtain ⟨g, hg, hgkf⟩ := find_king_file_eq_some huniq
  have hkr0 : 0 ≤ kr := huniq.1.1
  have hkr8 : kr < 8 := huniq.1.2.1
  have hkrn : ((kr.toNat : Nat) : Int) = kr := Int.toNat_of_nonneg hkr0
  have hstep := kingFold_unique (h := fun r : Nat => find_king_file board turn (r : Int))
    (x := kr.toNat) (v := g) (List.range 8) (-1, -1)
    (by simp only [List.mem_range]; omega)
    (by show find_king_file board turn ((kr.toNat : Nat) : Int) = some g
        rw [hkrn]; exact hg)
    (by
      intro y hy hne
      simp only [List.mem_range] at hy
      show find_king_file board turn ((y : Nat) : Int) = none
      refine find_king_file_eq_none huniq hy ?_
      intro hcast
      exact hne (by omega))
  rw [hkrn, hgkf] at hstep
  exact hstep

/-! ### The oracle characterization (shared by claims C1 and C5) -/

theorem specAttacked_iff_components {turn : Nat} {board : Board} {kr kf : Int} :
    specAttacked turn board kr kf ↔
      ((∃ k : Nat, orthHit board turn kr kf 1 0 k) ∨
       (∃ k : Nat, orthHit board turn kr kf (-1) 0 k) ∨
       (∃ k : Nat, orthHit board turn kr kf 0 (-1) k) ∨
       (∃ k : Nat, orthHit board turn kr kf 0 1 k)) ∨
      ((∃ k : Nat, diagHit board turn kr kf 1 (-1) k) ∨
       (∃ k : Nat, diagHit board turn kr kf 1 1 k) ∨
       (∃ k : Nat, diagHit board turn kr kf (-1) (-1) k) ∨
       (∃ k : Nat, diagHit board turn kr kf (-1) 1 k)) ∨
      knightHit board turn kr kf := by
  rw [specAttacked, knightHit]
  constructor
  · rintro (⟨d, hd, k, hk⟩ | ⟨d, hd, k, hk⟩ | h)
    · left
      fin_cases hd <;> simp only at hk
      · exact Or.inl ⟨k, hk.1, hk.2.1, hk.2.2⟩
      · exact Or.inr (Or.inl ⟨k, hk.1, hk.2.1, hk.2.2⟩)
      · exact Or.inr (Or.inr (Or.inl ⟨k, hk.1, hk.2.1, hk.2.2⟩))
      · exact Or.inr (Or.inr (Or.inr ⟨k, hk.1, hk.2.1, hk.2.2⟩))
    · right; left
      fin_cases hd <;> simp only at hk
      · exact Or.inl ⟨k, hk.1, hk.2.1, hk.2.2⟩
      · exact Or.inr (Or.inl ⟨k, hk.1, hk.2.1, hk.2.2⟩)
      · exact Or.inr (Or.inr (Or.inl ⟨k, hk.1, hk.2.1, hk.2.2⟩))
      · exact Or.inr (Or.inr (Or.inr ⟨k, hk.1, hk.2.1, hk.2.2⟩))
    · exact Or.inr (Or.inr h)
  · rintro ((⟨k, h1, h2, h3⟩ | ⟨k, h1, h2, h3⟩ | ⟨k, h1, h2, h3⟩ | ⟨k, h1, h2, h3⟩) |
      (⟨k, h1, h2, h3⟩ | ⟨k, h1, h2, h3⟩ | ⟨k, h1, h2, h3⟩ | ⟨k, h1, h2, h3⟩) | h)
    · exact Or.inl ⟨(1, 0), by simp [orthDirs], k, h1, h2, h3⟩
    · exact Or.inl ⟨(-1, 0), by simp [orthDirs], k, h1, h2, h3⟩
    · exact Or.inl ⟨(0, -1), by simp [orthDirs], k, h1, h2, h3⟩
    · exact Or.inl ⟨(0, 1), by simp [orthDirs], k, h1, h2, h3⟩
    · exact Or.inr (Or.inl ⟨(1, -1), by simp [diagDirs], k, h1, h2, h3⟩)
    · exact Or.inr (Or.inl ⟨(1, 1), by simp [diagDirs], k, h1, h2, h3⟩)
    · exact Or.inr (Or.inl ⟨(-1, -1), by simp [diagDirs], k, h1, h2, h3⟩)
    · exact Or.inr (Or.inl ⟨(-1, 1), by simp [diagDirs], k, h1, h2, h3⟩)
    · exact Or.inr (Or.inr h)

/-- Full characterization of `__check_king_safety`: with `turn`'s unique
king on `(kr, kf)`, the oracle approves exactly when no attack clause of
the claimed geometry holds at that square. -/
theorem check_king_safety_eq_true_iff {turn : Nat} {board : Board} {kr kf : Int}
    (h : uniqueKingAt turn board kr kf) :
    check_king_safety turn board = true ↔ ¬ specAttacked turn board kr kf := by
  have hfk : find_king turn board = (kr, kf) := find_king_eq h
  obtain ⟨⟨hkr0, hkr8, hkf0, hkf8⟩, -, -⟩ := h
  have hne : ¬((kr, kf) = ((-1 : Int), (-1 : Int))) := by
    intro hx
    have : kr = -1 := congrArg Prod.fst hx
    omega
  rw [check_king_safety]
  simp only [hfk, if_neg hne]
  have hin : inB kr kf := ⟨hkr0, hkr8, hkf0, hkf8⟩
  rw [specAttacked_iff_components]
  simp only [Bool.not_eq_true', Bool.or_eq_false_iff]
  constructor
  · rintro ⟨⟨⟨⟨⟨⟨⟨⟨s1, s2⟩, s3⟩, s4⟩, s5⟩, s6⟩, s7⟩, s8⟩, s9⟩
    rintro ((hA | hA | hA | hA) | (hA | hA | hA | hA) | hA)
    · exact absurd ((scanUp_iff hin).mpr hA) (by simp [s1])
    · exact absurd ((scanDown_iff hin).mpr hA) (by simp [s2])
    · exact absurd ((scanLeft_iff hin).mpr hA) (by simp [s3])
    · exact absurd ((scanRight_iff hin).mpr hA) (by simp [s4])
    · exact absurd ((scanLeftUp_iff hin).mpr hA) (by simp [s5])
    · exact absurd ((scanRightUp_iff hin).mpr hA) (by simp [s6])
    · exact absurd ((scanLeftDown_iff hin).mpr hA) (by simp [s7])
    · exact absurd ((scanRightDown_iff hin).mpr hA) (by simp [s8])
    · exact absurd (knightAttack_iff.mpr hA) (by simp [s9])
  · intro hno
    refine ⟨⟨⟨⟨⟨⟨⟨⟨?_, ?_⟩, ?_⟩, ?_⟩, ?_⟩, ?_⟩, ?_⟩, ?_⟩, ?_⟩
    · exact Bool.not_eq_true _ ▸ fun hx => hno (Or.inl (Or.inl ((scanUp_iff hin).mp hx)))
    · exact Bool.not_eq_true _ ▸ fun hx =>
        hno (Or.inl (Or.inr (Or.inl ((scanDown_iff hin).mp hx))))
    · exact Bool.not_eq_true _ ▸ fun hx =>
        hno (Or.inl (Or.inr (Or.inr (Or.inl ((scanLeft_iff hin).mp hx)))))
    · exact Bool.not_eq_true _ ▸ fun hx =>
        hno (Or.inl (Or.inr (Or.inr (Or.inr ((scanRight_iff hin).mp hx)))))
    · exact Bool.not_eq_true _ ▸ fun hx =>
        hno (Or.inr (Or.inl (Or.inl ((scanLeftUp_iff hin).mp hx))))
    · exact Bool.not_eq_true _ ▸ fun hx =>
        hno (Or.inr (Or.inl (Or.inr (Or.inl ((scanRightUp_iff hin).mp hx)))))
    · exact Bool.not_eq_true _ ▸ fun hx =>
        hno (Or.inr (Or.inl (Or.inr (Or.inr (Or.inl ((scanLeftDown_iff hin).mp hx))))))
    · exact Bool.not_eq_true _ ▸ fun hx =>
        hno (Or.inr (Or.inl (Or.inr (Or.inr (Or.inr ((scanRightDown_iff hin).mp hx))))))
    · exact Bool.not_eq_true _ ▸ fun hx => hno (Or.inr (Or.inr (knightAttack_iff.mp hx)))

/-! ### Claim C1 -/

/-- C1: for every board and color with a unique king of that color, the
king-safety oracle `__check_king_safety` returns true iff no opposing piece
satisfies its attack geometry to that king's square: along each orthogonal
ray the first non-empty square is an enemy rook/queen (or an enemy king at
distance 1); along each diagonal ray the first non-empty square is an enemy
bishop/queen (or, at distance 1, an enemy king or an attacking enemy pawn);
or a knight-offset square holds an enemy knight. -/
theorem C1_oracle_characterization (turn : Nat) (board : Board) (kr kf : Int)
    (h : uniqueKingAt turn board kr kf) :
    check_king_safety turn board = true ↔ ¬ specAttacked turn board kr kf :=
  check_king_safety_eq_true_iff h

/-- A White king on e1 with a Black rook on e8 (unique king, attack along
the `UP` ray). -/
def boardC1w : Board := fun r f =>
  if r = 0 ∧ f = 4 then WHITE_KING
  else if r = 7 ∧ f = 4 then BLACK_ROOK
  else ptEMPTY

theorem C1_oracle_characterization_witness :
    uniqueKingAt ptWHITE boardC1w 0 4 ∧
    (check_king_safety ptWHITE boardC1w = true ↔ ¬ specAttacked ptWHITE boardC1w 0 4) :=
  ⟨by decide, C1_oracle_characterization ptWHITE boardC1w 0 4 (by decide)⟩

/-! ### Claim C5 -/

/-- One step toward the enemy pawns' side: the rank from which an enemy
pawn captures onto `turn`'s king (Black pawns capture downward, so they
threaten a White king from one rank above; White pawns symmetrically from
one rank below a Black king). -/
def pawnDir (turn : Nat) : Int := if turn = ptWHITE then 1 else -1

/-- An enemy pawn stands on a board square diagonally adjacent to
`(kr, kf)`, one rank toward the enemy side. -/
def pawnThreat (turn : Nat) (board : Board) (kr kf : Int) : Prop :=
  ∃ df ∈ ([-1, 1] : List Int),
    inB (kr + pawnDir turn) (kf + df) ∧
    isEnemy turn (board (kr + pawnDir turn) (kf + df)) ∧
    getPieceKind (board (kr + pawnDir turn) (kf + df)) = ptPAWN

/-- A White king on e5 and a Black pawn on d4 — one rank *below* the king
diagonally, the configuration claim C5 says is registered as an attack. -/
def boardC5 : Board := fun r f =>
  if r = 4 ∧ f = 4 then WHITE_KING
  else if r = 3 ∧ f = 3 then BLACK_PAWN
  else ptEMPTY

/-- C5 counterexample: with a Black pawn diagonally one rank *below* the
White king (and nothing else on the board), the claim as stated predicts an
attack, i.e. `__check_king_safety` false; the oracle reports the king safe.
(The code appends `PAWN` to the attackable kinds only on the rank-increasing
diagonals for White — pawns one rank *above*.) -/
theorem C5_counterexample :
    boardC5 3 3 = BLACK_PAWN ∧ boardC5 4 4 = WHITE_KING ∧
    check_king_safety ptWHITE boardC5 = true := by decide

/-- C5 (amended: the direction is inverted relative to the claim text): in
the diagonal probes a pawn attack is registered exactly for an enemy pawn
positioned to capture toward the king — a White king is attacked only by
Black pawns one rank *above* it diagonally (distance 1), and symmetrically
a Black king only by White pawns one rank *below* it diagonally.  Stated on
boards whose enemy pieces are pawns only, so that the pawn clause is the
only possible attack: the oracle reports the king attacked iff such a pawn
exists. -/
theorem C5_pawn_attack_direction (turn : Nat) (board : Board) (kr kf : Int)
    (hturn : turn = ptWHITE ∨ turn = ptBLACK)
    (h : uniqueKingAt turn board kr kf)
    (hpaw : ∀ r : Nat, r < 8 → ∀ f : Nat, f < 8 →
      isEnemy turn (board (r : Int) (f : Int)) →
      getPieceKind (board (r : Int) (f : Int)) = ptPAWN) :
    check_king_safety turn board = false ↔ pawnThreat turn board kr kf := by
  have hchar := check_king_safety_eq_true_iff h
  have hfalse : check_king_safety turn board = false ↔ specAttacked turn board kr kf := by
    rw [← Bool.not_eq_true, hchar, not_not]
  have hpawI : ∀ r f : Int, inB r f → isEnemy turn (board r f) →
      getPieceKind (board r f) = ptPAWN := by
    intro r f hin hen
    obtain ⟨hr0, hr8, hf0, hf8⟩ := hin
    have hrn : ((r.toNat : Nat) : Int) = r := Int.toNat_of_nonneg hr0
    have hfn : ((f.toNat : Nat) : Int) = f := Int.toNat_of_nonneg hf0
    have := hpaw r.toNat (by omega) f.toNat (by omega)
    rw [hrn, hfn] at this
    exact this hen
  have horth : ∀ dr df : Int, ∀ k : Nat, orthHit board turn kr kf dr df k → False := by
    intro dr df k hh
    obtain ⟨⟨hk1, hinB, hemp⟩, hen, hkd⟩ := hh
    have hp := hpawI _ _ (hinB k hk1 le_rfl) hen
    rcases hkd with hx | hx | ⟨-, hx⟩ <;> rw [hx] at hp <;> exact absurd hp (by decide)
  have hknight : knightHit board turn kr kf → False := by
    rintro ⟨l, hl, hin, hen, hkd⟩
    have hp := hpawI _ _ hin hen
    rw [hkd] at hp
    exact absurd hp (by decide)
  have hdiag : ∀ dr df : Int, ∀ k : Nat, diagHit board turn kr kf dr df k →
      pawnCapturesToward turn dr ∧ inB (kr + dr) (kf + df) ∧
      isEnemy turn (board (kr + dr) (kf + df)) ∧
      getPieceKind (board (kr + dr) (kf + df)) = ptPAWN := by
    intro dr df k hh
    obtain ⟨⟨hk1, hinB, hemp⟩, hen, hkd⟩ := hh
    have hp := hpawI _ _ (hinB k hk1 le_rfl) hen
    rcases hkd with hx | hx | ⟨hk, hx | ⟨hpk, hdir⟩⟩
    · rw [hx] at hp; exact absurd hp (by decide)
    · rw [hx] at hp; exact absurd hp (by decide)
    · rw [hx] at hp; exact absurd hp (by decide)
    · subst hk
      have hin1 := hinB 1 le_rfl le_rfl
      simp only [Nat.cast_one, one_mul] at hin1 hen hpk
      exact ⟨hdir, hin1, hen, hpk⟩
  have hpd_of : ∀ dr : Int, pawnCapturesToward turn dr → pawnDir turn = dr := by
    rintro dr (⟨ht, rfl⟩ | ⟨ht, rfl⟩) <;> subst ht <;> simp [pawnDir, ptWHITE, ptBLACK]
  rw [hfalse, specAttacked_iff_components]
  constructor
  · rintro ((hh | hh | hh | hh) | (hh | hh | hh | hh) | hh)
    · exact absurd hh (by rintro ⟨k, hk⟩; exact horth _ _ k hk)
    · exact absurd hh (by rintro ⟨k, hk⟩; exact horth _ _ k hk)
    · exact absurd hh (by rintro ⟨k, hk⟩; exact horth _ _ k hk)
    · exact absurd hh (by rintro ⟨k, hk⟩; exact horth _ _ k hk)
    · obtain ⟨k, hk⟩ := hh
      obtain ⟨hdir, hin, hen, hkd⟩ := hdiag _ _ k hk
      have hpd := hpd_of _ hdir
      exact ⟨-1, by simp, by rw [hpd]; exact hin,
        by rw [hpd]; exact hen, by rw [hpd]; exact hkd⟩
    · obtain ⟨k, hk⟩ := hh
      obtain ⟨hdir, hin, hen, hkd⟩ := hdiag _ _ k hk
      have hpd := hpd_of _ hdir
      exact ⟨1, by simp, by rw [hpd]; exact hin,
        by rw [hpd]; exact hen, by rw [hpd]; exact hkd⟩
    · obtain ⟨k, hk⟩ := hh
      obtain ⟨hdir, hin, hen, hkd⟩ := hdiag _ _ k hk
      have hpd := hpd_of _ hdir
      exact ⟨-1, by simp, by rw [hpd]; exact hin,
        by rw [hpd]; exact hen, by rw [hpd]; exact hkd⟩
    · obtain ⟨k, hk⟩ := hh
      obtain ⟨hdir, hin, hen, hkd⟩ := hdiag _ _ k hk
      have hpd := hpd_of _ hdir
      exact ⟨1, by simp, by rw [hpd]; exact hin,
        by rw [hpd]; exact hen, by rw [hpd]; exact hkd⟩
    · exact absurd hh hknight
  · rintro ⟨df, hdf, hin, hen, hkd⟩
    simp only [List.mem_cons, List.mem_singleton, List.not_mem_nil, or_false] at hdf
    have hcap : pawnCapturesToward turn (pawnDir turn) := by
      rcases hturn with ht | ht <;> subst ht
      · exact Or.inl ⟨rfl, by simp [pawnDir, ptWHITE]⟩
      · exact Or.inr ⟨rfl, by simp [pawnDir, ptBLACK, ptWHITE]⟩
    have hbuild : diagHit board turn kr kf (pawnDir turn) df 1 := by
      refine ⟨⟨le_rfl, ?_, ?_⟩, ?_, ?_⟩
      · intro i hi1 hi2
        have hone : i = 1 := le_antisymm hi2 hi1
        subst hone
        simpa only [Nat.cast_one, one_mul] using hin
      · intro i h1 h2; omega
      · simpa only [Nat.cast_one, one_mul] using hen
      · exact Or.inr (Or.inr ⟨rfl, Or.inr
          ⟨by simpa only [Nat.cast_one, one_mul] using hkd, hcap⟩⟩)
    right; left
    have hpdv : pawnDir turn = 1 ∨ pawnDir turn = -1 := by
      unfold pawnDir; split <;> simp
    rcases hpdv with hpd | hpd <;> rw [hpd] at hbuild <;> rcases hdf with rfl | rfl
    · exact Or.inl ⟨1, hbuild⟩
    · exact Or.inr (Or.inl ⟨1, hbuild⟩)
    · exact Or.inr (Or.inr (Or.inl ⟨1, hbuild⟩))
    · exact Or.inr (Or.inr (Or.inr ⟨1, hbuild⟩))

/-- A White king on e5 with a Black pawn on d6 (one rank above,
diagonally). -/
def boardC5w : Board := fun r f =>
  if r = 4 ∧ f = 4 then WHITE_KING
  else if r = 5 ∧ f = 3 then BLACK_PAWN
  else ptEMPTY

theorem C5_pawn_attack_direction_witness :
    (ptWHITE = ptWHITE ∨ ptWHITE = ptBLACK) ∧
    uniqueKingAt ptWHITE boardC5w 4 4 ∧
    (∀ r : Nat, r < 8 → ∀ f : Nat, f < 8 →
      isEnemy ptWHITE (boardC5w (r : Int) (f : Int)) →
      getPieceKind (boardC5w (r : Int) (f : Int)) = ptPAWN) ∧
    (check_king_safety ptWHITE boardC5w = false ↔ pawnThreat ptWHITE boardC5w 4 4) :=
  ⟨Or.inl rfl, by decide, by decide,
    C5_pawn_attack_direction ptWHITE boardC5w 4 4 (Or.inl rfl) (by decide) (by decide)⟩

/-! ### Claim C10 -/

/-- The precondition claim C10 states: no White pawn on rank 7 and no
unmoved White pawn on rank 6 (symmetrically for Black), instantiated at one
call of `__get_squares_pawn`. -/
def claimedPawnPrecond (color : Nat) (is_already_moved : Bool) (rank : Int) : Prop :=
  (color = ptWHITE → rank ≠ 7 ∧ (is_already_moved = true ∨ rank ≠ 6)) ∧
  (color = ptBLACK → rank ≠ 0 ∧ (is_already_moved = true ∨ rank ≠ 1))

instance (color : Nat) (is_already_moved : Bool) (rank : Int) :
    Decidable (claimedPawnPrecond color is_already_moved rank) := by
  unfold claimedPawnPrecond; infer_instance

/-- An unmoved White pawn on a6 whose forward square a7 is occupied. -/
def boardC10 : Board := fun r f =>
  if r = 7 ∧ f = 0 then BLACK_ROOK
  else if r = 6 ∧ f = 0 then WHITE_PAWN
  else ptEMPTY

/-- C10 counterexample: for an unmoved White pawn on rank 6 whose forward
square is occupied, every grid access of `__get_squares_pawn` has rank index
in `[0,7]` (the `rank+2` read is guarded by the emptiness of the square
directly ahead, so it does not happen), although the claimed precondition —
no unmoved White pawn on rank 6 — is violated; so totality is not *exactly*
the claimed precondition, and the `rank+2` read is not unconditional on
`has_moved` being false. -/
theorem C10_counterexample :
    ¬(pawnReadsTotal boardC10 ptWHITE false 6 0 = true ↔
      claimedPawnPrecond ptWHITE false 6) := by
  decide

/-- C10 (amended): `__get_squares_pawn` reads `board_status[rank+1][file]`
unconditionally for a White pawn and `board_status[rank+2][file]` when
`has_moved` is false *and the square directly ahead is empty*, with no
rank-bounds guard; all its rank indices lie in `[0,7]` exactly when the
pawn is not on rank 7 and is not an unmoved pawn on rank 6 with an empty
square directly ahead (symmetrically for Black with ranks 0 and 1). -/
theorem C10_pawn_generator_totality (board : Board) (color : Nat)
    (is_already_moved : Bool) (rank file : Int)
    (hc : color = ptWHITE ∨ color = ptBLACK) (hr : 0 ≤ rank ∧ rank < 8) :
    pawnReadsTotal board color is_already_moved rank file = true ↔
      ((color = ptWHITE →
        rank ≠ 7 ∧
        (is_already_moved = false ∧ board (rank + 1) file = ptEMPTY → rank ≠ 6)) ∧
       (color = ptBLACK →
        rank ≠ 0 ∧
        (is_already_moved = false ∧ board (rank - 1) file = ptEMPTY → rank ≠ 1))) := by
  obtain ⟨hr0, hr8⟩ := hr
  rcases hc with rfl | rfl
  · have hW : ¬(ptWHITE = ptBLACK) := by decide
    by_cases hbe : board (rank + 1) file = ptEMPTY <;>
      cases is_already_moved <;>
        by_cases h1 : file > (0 : Int) <;>
          by_cases h2 : file < (7 : Int) <;>
            simp [pawnReadsTotal, pawnRankReads, hbe, hW, h1, h2] <;>
              omega
  · have hB : ¬(ptBLACK = ptWHITE) := by decide
    by_cases hbe : board (rank - 1) file = ptEMPTY <;>
      cases is_already_moved <;>
        by_cases h1 : file > (0 : Int) <;>
          by_cases h2 : file < (7 : Int) <;>
            simp [pawnReadsTotal, pawnRankReads, hbe, hB, h1, h2] <;>
              omega

theorem C10_pawn_generator_totality_witness :
    ((ptWHITE = ptWHITE ∨ ptWHITE = ptBLACK) ∧ ((0 : Int) ≤ 6 ∧ (6 : Int) < 8)) ∧
    (pawnReadsTotal boardC10 ptWHITE false 6 0 = true ↔
      ((ptWHITE = ptWHITE →
        (6 : Int) ≠ 7 ∧
        (false = false ∧ boardC10 (6 + 1) 0 = ptEMPTY → (6 : Int) ≠ 6)) ∧
       (ptWHITE = ptBLACK →
        (6 : Int) ≠ 0 ∧
        (false = false ∧ boardC10 (6 - 1) 0 = ptEMPTY → (6 : Int) ≠ 1)))) :=
  ⟨⟨Or.inl rfl, by decide⟩,
    C10_pawn_generator_totality boardC10 ptWHITE false 6 0 (Or.inl rfl) (by decide)⟩

/-! ### Frame lemmas for the availability computation -/

theorem get_available_moves_avail_irrel (st : GameState) (v : List PieceMove)
    (pid : PieceId) :
    get_available_moves { st with avail_moves := v } pid = get_available_moves st pid := rfl

theorem get_available_moves_snd (st : GameState) (pid : PieceId) :
    (get_available_moves st pid).2 =
      { st with avail_moves := (get_available_moves st pid).2.avail_moves } := rfl

theorem get_available_moves_fst (st : GameState) (pid : PieceId) :
    (get_available_moves st pid).1 =
      decide ((get_available_moves st pid).2.avail_moves.length > 0) := rfl

theorem avail_scan_snd :
    ∀ (l : List PieceId) (st : GameState) (b : Bool),
      (avail_scan b st l).2 = { st with avail_moves := (avail_scan b st l).2.avail_moves } := by
  intro l
  induction l with
  | nil => intro st b; rfl
  | cons p rest ih =>
    intro st b
    have h1 : avail_scan b st (p :: rest) =
        avail_scan (b || (get_available_moves st p).1) (get_available_moves st p).2 rest := rfl
    rw [h1, ih]
    rfl

theorem avail_scan_fst :
    ∀ (l : List PieceId) (st : GameState) (b : Bool),
      (avail_scan b st l).1 = (b || l.any fun pid => (get_available_moves st pid).1) := by
  intro l
  induction l with
  | nil => intro st b; simp [avail_scan]
  | cons p rest ih =>
    intro st b
    have h1 : avail_scan b st (p :: rest) =
        avail_scan (b || (get_available_moves st p).1) (get_available_moves st p).2 rest := rfl
    rw [h1, ih, get_available_moves_snd st p]
    have h2 : (fun pid =>
        (get_available_moves
          { st with avail_moves := (get_available_moves st p).2.avail_moves } pid).1) =
        fun pid => (get_available_moves st pid).1 :=
      funext fun pid => by rw [get_available_moves_avail_irrel]
    rw [h2, List.any_cons, Bool.or_assoc]

/-! ### Claim C8 -/

/-- C8: probing legality has no effect on the live position.  In the
embedding the deep copies of `__is_legal_move` and
`__is_castling_available` are pure values, so the whole per-piece
availability computation — which runs the legality filter on every basic
and en-passant candidate and the castling path checks — returns the live
board grid, the piece states, the active-piece lists, the turn and the move
history unchanged; only the `avail_moves` cache is reassigned. -/
theorem C8_probe_preserves_live_state (st : GameState) (pid : PieceId) :
    (get_available_moves st pid).2.board_status = st.board_status ∧
    (get_available_moves st pid).2.pieces = st.pieces ∧
    (get_available_moves st pid).2.active_white = st.active_white ∧
    (get_available_moves st pid).2.active_black = st.active_black ∧
    (get_available_moves st pid).2.turn = st.turn ∧
    (get_available_moves st pid).2.move_history = st.move_history :=
  ⟨rfl, rfl, rfl, rfl, rfl, rfl⟩

/-! ### Claim C9 -/

/-- C9: a request whose destination square matches no currently available
move — including the boundary square `(-1, -1)` and the no-focus case, both
of which make `__find_available_move` return `None` — processes no move:
the board grid, the piece map, both active-piece lists, the turn and the
move history are all unchanged by the click (the handler at most frees the
focus), and the embedded handler is total. -/
theorem C9_unmatched_click_is_noop (st : GameState) (rank file : Int)
    (h : find_available_move st rank file = none) :
    (board_click st rank file).board_status = st.board_status ∧
    (board_click st rank file).pieces = st.pieces ∧
    (board_click st rank file).active_white = st.active_white ∧
    (board_click st rank file).active_black = st.active_black ∧
    (board_click st rank file).turn = st.turn ∧
    (board_click st rank file).move_history = st.move_history := by
  unfold board_click
  by_cases hp : st.promotion_mode = true
  · simp only [hp, if_pos rfl]
    exact ⟨rfl, rfl, rfl, rfl, rfl, rfl⟩
  · have hp' : st.promotion_mode = false := by
      cases hx : st.promotion_mode
      · rfl
      · exact absurd hx hp
    simp only [hp', Bool.false_eq_true, if_neg (by simp : ¬False), h]
    by_cases hf : st.is_in_focus = true
    · simp only [hf, if_pos rfl]
      exact ⟨rfl, rfl, rfl, rfl, rfl, rfl⟩
    · have hf' : st.is_in_focus = false := by
        cases hx : st.is_in_focus
        · rfl
        · exact absurd hx hf
      simp only [hf', Bool.false_eq_true, if_neg (by simp : ¬False)]
      exact ⟨rfl, rfl, rfl, rfl, rfl, rfl⟩

/-- A quiescent state: nothing in focus, no available moves cached. -/
def stC9 : GameState :=
  { board_status := boardC1w
    pieces := fun _ => { rank := -1, file := -1, ptype := ptEMPTY, already_moved := false }
    active_white := []
    active_black := []
    turn := ptWHITE
    move_history := []
    promotion_mode := false
    is_in_focus := false
    piece_in_focus := none
    avail_moves := [] }

theorem C9_unmatched_click_is_noop_witness :
    find_available_move stC9 3 3 = none ∧
    ((board_click stC9 3 3).board_status = stC9.board_status ∧
     (board_click stC9 3 3).pieces = stC9.pieces ∧
     (board_click stC9 3 3).active_white = stC9.active_white ∧
     (board_click stC9 3 3).active_black = stC9.active_black ∧
     (board_click stC9 3 3).turn = stC9.turn ∧
     (board_click stC9 3 3).move_history = stC9.move_history) :=
  ⟨rfl, C9_unmatched_click_is_noop stC9 3 3 rfl⟩

/-! ### Frame lemmas for the post-move pipeline -/

theorem update_piece_status_frame (st : GameState) (m : PieceMove) :
    (update_piece_status st m).turn = st.turn ∧
    (update_piece_status st m).move_history = st.move_history ∧
    (update_piece_status st m).promotion_mode = st.promotion_mode ∧
    (update_piece_status st m).board_status = st.board_status := by
  unfold update_piece_status
  dsimp only
  repeat' split
  all_goals exact ⟨rfl, rfl, rfl, rfl⟩

theorem is_no_avail_move_snd (st : GameState) :
    (is_no_avail_move st).2 =
      { st with avail_moves := (is_no_avail_move st).2.avail_moves } := by
  unfold is_no_avail_move
  split
  · exact avail_scan_snd _ _ _
  · split
    · exact avail_scan_snd _ _ _
    · rfl

theorem check_game_over_snd (st : GameState) :
    (check_game_over st).2 = (is_no_avail_move st).2 := by
  unfold check_game_over
  dsimp only
  split
  · rfl
  · split <;> rfl

theorem check_game_over_turn (st : GameState) :
    (check_game_over st).2.turn = st.turn := by
  rw [check_game_over_snd, is_no_avail_move_snd]

/-! ### Claim C7 -/

theorem hand_player_turn_flip (s : GameState) {t : Nat}
    (hs : s.turn = t) (ht : t = ptWHITE ∨ t = ptBLACK) :
    (hand_player_turn s).turn = t ^^^ COLOR_MASK := by
  unfold hand_player_turn
  rcases ht with ht | ht <;> subst ht <;> rw [hs] <;> rfl

theorem promotion_item_click_turn (s : GameState) (n : Nat) (lm : PieceMove)
    (h : s.move_history.getLast? = some lm) {t : Nat}
    (hs : s.turn = t) (ht : t = ptWHITE ∨ t = ptBLACK) :
    (promotion_item_click s n).1.turn = t ^^^ COLOR_MASK := by
  unfold promotion_item_click
  rw [h]
  dsimp only
  rw [check_game_over_turn]
  apply hand_player_turn_flip _ _ ht
  split <;> exact hs

/-- C7: the turn flips exactly once per fully-applied move.  For a Basic,
Castling or EnPassant last move, `__process_after_move` (the commit slot:
piece update, board update, then turn hand-over and game-over check) leaves
the turn at the mover's opponent.  For a Promotion move the same slot leaves
the turn untouched and defers; the promotion-choice handler then flips it
exactly once, whatever slot `n` is clicked. -/
theorem C7_turn_flips_once (st : GameState) (lm : PieceMove)
    (hlast : st.move_history.getLast? = some lm)
    (hturn : st.turn = ptWHITE ∨ st.turn = ptBLACK) :
    (lm.move_type ≠ MoveType.PROMOTION →
      (process_after_move st).1.turn = st.turn ^^^ COLOR_MASK) ∧
    (lm.move_type = MoveType.PROMOTION →
      (process_after_move st).1.turn = st.turn ∧
      ∀ n : Nat,
        (promotion_item_click (process_after_move st).1 n).1.turn =
          st.turn ^^^ COLOR_MASK) := by
  have hfr := update_piece_status_frame st lm
  have ht2 : (update_board_status (update_piece_status st lm) lm).turn = st.turn := by
    unfold update_board_status
    exact hfr.1
  have hh2 : (update_board_status (update_piece_status st lm) lm).move_history =
      st.move_history := by
    unfold update_board_status
    exact hfr.2.1
  unfold process_after_move
  rw [hlast]
  dsimp only
  constructor
  · intro hnp
    rw [if_neg hnp]
    dsimp only
    rw [check_game_over_turn]
    exact hand_player_turn_flip _ ht2 hturn
  · intro hp
    rw [if_pos hp]
    dsimp only
    refine ⟨ht2, fun n => ?_⟩
    exact promotion_item_click_turn _ n lm (by rw [hh2]; exact hlast) ht2 hturn

/-- A minimal state whose last (already-animated) move is a basic pawn
push by White. -/
def mvC7 : PieceMove :=
  { piece_to_move := 8
    piece_in_capture := none
    piece_aux := none
    move_type := MoveType.BASIC
    old_square := (1, 4)
    new_square := (3, 4)
    aux_square := none }

def stC7 : GameState :=
  { board_status := boardC1w
    pieces := fun i =>
      if i = 8 then { rank := 1, file := 4, ptype := WHITE_PAWN, already_moved := false }
      else { rank := -1, file := -1, ptype := ptEMPTY, already_moved := false }
    active_white := []
    active_black := []
    turn := ptWHITE
    move_history := [mvC7]
    promotion_mode := false
    is_in_focus := false
    piece_in_focus := none
    avail_moves := [] }

theorem C7_turn_flips_once_witness :
    (stC7.move_history.getLast? = some mvC7 ∧
     (stC7.turn = ptWHITE ∨ stC7.turn = ptBLACK)) ∧
    ((mvC7.move_type ≠ MoveType.PROMOTION →
      (process_after_move stC7).1.turn = stC7.turn ^^^ COLOR_MASK) ∧
     (mvC7.move_type = MoveType.PROMOTION →
      (process_after_move stC7).1.turn = stC7.turn ∧
      ∀ n : Nat,
        (promotion_item_click (process_after_move stC7).1 n).1.turn =
          stC7.turn ^^^ COLOR_MASK)) :=
  ⟨⟨rfl, Or.inl rfl⟩, C7_turn_flips_once stC7 mvC7 rfl (Or.inl rfl)⟩

/-! ### Claim C2 -/

/-- The side to move is in check: the oracle rejects its king's safety. -/
def inCheckP (s : GameState) : Prop :=
  check_king_safety s.turn s.board_status = false

/-- Some active piece of the side to move has a non-empty legal-move set
(the move list `__get_available_moves` computes for it). -/
def hasAnyLegalMove (s : GameState) : Prop :=
  ∃ pid ∈ (if s.turn = ptWHITE then s.active_white else s.active_black),
    (get_available_moves s pid).2.avail_moves ≠ []

theorem inCheckP_avail_irrel (s : GameState) (v : List PieceMove) :
    inCheckP { s with avail_moves := v } ↔ inCheckP s := Iff.rfl

theorem hasAnyLegalMove_avail_irrel (s : GameState) (v : List PieceMove) :
    hasAnyLegalMove { s with avail_moves := v } ↔ hasAnyLegalMove s := by
  unfold hasAnyLegalMove
  apply exists_congr
  intro pid
  rw [get_available_moves_avail_irrel]

theorem is_no_avail_move_fst (s : GameState)
    (hturn : s.turn = ptWHITE ∨ s.turn = ptBLACK) :
    (is_no_avail_move s).1 =
      !((if s.turn = ptWHITE then s.active_white else s.active_black).any
          fun pid => (get_available_moves s pid).1) := by
  unfold is_no_avail_move
  rcases hturn with ht | ht
  · rw [if_pos ht, if_pos ht]
    dsimp only
    rw [avail_scan_fst]
    simp
  · have hbw : ¬(ptBLACK = ptWHITE) := by decide
    rw [ht, if_neg hbw, if_pos rfl, if_neg hbw]
    dsimp only
    rw [avail_scan_fst]
    simp

theorem inCheckP_iff_check_state (s : GameState) :
    inCheckP s ↔ is_check_state s = true := by
  unfold inCheckP is_check_state
  cases check_king_safety s.turn s.board_status <;> simp

theorem hasAnyLegalMove_iff_any (s : GameState) :
    hasAnyLegalMove s ↔
      ((if s.turn = ptWHITE then s.active_white else s.active_black).any
        fun pid => (get_available_moves s pid).1) = true := by
  rw [List.any_eq_true]
  unfold hasAnyLegalMove
  apply exists_congr
  intro pid
  apply and_congr_right
  intro _
  rw [get_available_moves_fst]
  simp only [decide_eq_true_eq, gt_iff_lt, List.length_pos]

theorem check_game_over_spec (s : GameState)
    (hturn : s.turn = ptWHITE ∨ s.turn = ptBLACK) :
    ((check_game_over s).1 = GameOutcome.win (s.turn ^^^ COLOR_MASK) ↔
       inCheckP s ∧ ¬ hasAnyLegalMove s) ∧
    ((check_game_over s).1 = GameOutcome.tie ↔ ¬ inCheckP s ∧ ¬ hasAnyLegalMove s) ∧
    ((check_game_over s).1 = GameOutcome.ongoing ↔ hasAnyLegalMove s) := by
  have hC := inCheckP_iff_check_state s
  have hH := hasAnyLegalMove_iff_any s
  have hN := is_no_avail_move_fst s hturn
  unfold check_game_over
  dsimp only
  cases hchk : is_check_state s <;> cases hany :
      ((if s.turn = ptWHITE then s.active_white else s.active_black).any
        fun pid => (get_available_moves s pid).1) <;>
    rw [hchk] at hC <;> rw [hany] at hH <;> rw [hany] at hN <;>
      simp only [hN, Bool.not_false, Bool.not_true, Bool.false_and, Bool.true_and,
        Bool.and_false, Bool.and_true, if_pos, if_neg, Bool.false_eq_true,
        if_true, if_false] <;>
      simp [hC, hH]

/-- C2: after every fully-resolved move — through `__process_after_move`
directly for Basic/Castling/EnPassant, or through the promotion-choice
handler for a Promotion — with nextTurn the side now to move: Checkmate
with the mover as winner exactly when nextTurn is in check and has no
active piece with a legal move; Stalemate exactly when nextTurn is not in
check and has no legal move; otherwise the game goes on with the turn
flipped to nextTurn. -/
theorem C2_game_over_classification (st : GameState) (lm : PieceMove)
    (hlast : st.move_history.getLast? = some lm)
    (hturn : st.turn = ptWHITE ∨ st.turn = ptBLACK) :
    (lm.move_type ≠ MoveType.PROMOTION →
      ∃ out : GameOutcome, (process_after_move st).2 = some out ∧
        (process_after_move st).1.turn = st.turn ^^^ COLOR_MASK ∧
        (out = GameOutcome.win st.turn ↔
          inCheckP (process_after_move st).1 ∧
          ¬ hasAnyLegalMove (process_after_move st).1) ∧
        (out = GameOutcome.tie ↔
          ¬ inCheckP (process_after_move st).1 ∧
          ¬ hasAnyLegalMove (process_after_move st).1) ∧
        (out = GameOutcome.ongoing ↔ hasAnyLegalMove (process_after_move st).1)) ∧
    (lm.move_type = MoveType.PROMOTION →
      (process_after_move st).2 = none ∧
      ∀ n : Nat,
        (promotion_item_click (process_after_move st).1 n).1.turn =
          st.turn ^^^ COLOR_MASK ∧
        ((promotion_item_click (process_after_move st).1 n).2 =
            GameOutcome.win st.turn ↔
          inCheckP (promotion_item_click (process_after_move st).1 n).1 ∧
          ¬ hasAnyLegalMove (promotion_item_click (process_after_move st).1 n).1) ∧
        ((promotion_item_click (process_after_move st).1 n).2 = GameOutcome.tie ↔
          ¬ inCheckP (promotion_item_click (process_after_move st).1 n).1 ∧
          ¬ hasAnyLegalMove (promotion_item_click (process_after_move st).1 n).1) ∧
        ((promotion_item_click (process_after_move st).1 n).2 = GameOutcome.ongoing ↔
          hasAnyLegalMove (promotion_item_click (process_after_move st).1 n).1)) := by
  have hxor : ∀ t : Nat, t = ptWHITE ∨ t = ptBLACK →
      ((t ^^^ COLOR_MASK = ptWHITE ∨ t ^^^ COLOR_MASK = ptBLACK) ∧
       (t ^^^ COLOR_MASK) ^^^ COLOR_MASK = t) := by
    rintro t (rfl | rfl) <;> exact ⟨by decide, by decide⟩
  -- the classification of `hand the turn, then check game over`, read off the
  -- returned (post-scan) state
  have core : ∀ s0 : GameState, s0.turn = st.turn →
      ((check_game_over (hand_player_turn s0)).2.turn = st.turn ^^^ COLOR_MASK ∧
       ((check_game_over (hand_player_turn s0)).1 = GameOutcome.win st.turn ↔
         inCheckP (check_game_over (hand_player_turn s0)).2 ∧
         ¬ hasAnyLegalMove (check_game_over (hand_player_turn s0)).2) ∧
       ((check_game_over (hand_player_turn s0)).1 = GameOutcome.tie ↔
         ¬ inCheckP (check_game_over (hand_player_turn s0)).2 ∧
         ¬ hasAnyLegalMove (check_game_over (hand_player_turn s0)).2) ∧
       ((check_game_over (hand_player_turn s0)).1 = GameOutcome.ongoing ↔
         hasAnyLegalMove (check_game_over (hand_player_turn s0)).2)) := by
    intro s0 hs0
    have hflip : (hand_player_turn s0).turn = st.turn ^^^ COLOR_MASK :=
      hand_player_turn_flip s0 hs0 hturn
    have hflipmem : (hand_player_turn s0).turn = ptWHITE ∨
        (hand_player_turn s0).turn = ptBLACK := by
      rw [hflip]
      exact (hxor st.turn hturn).1
    have hspec := check_game_over_spec (hand_player_turn s0) hflipmem
    have hback : (hand_player_turn s0).turn ^^^ COLOR_MASK = st.turn := by
      rw [hflip]
      exact (hxor st.turn hturn).2
    rw [hback] at hspec
    have hsnd : (check_game_over (hand_player_turn s0)).2 =
        { hand_player_turn s0 with
          avail_moves := (check_game_over (hand_player_turn s0)).2.avail_moves } := by
      rw [check_game_over_snd, is_no_avail_move_snd]
    refine ⟨by rw [check_game_over_turn, hflip], ?_, ?_, ?_⟩
    · rw [hsnd, inCheckP_avail_irrel, hasAnyLegalMove_avail_irrel]
      exact hspec.1
    · rw [hsnd, inCheckP_avail_irrel, hasAnyLegalMove_avail_irrel]
      exact hspec.2.1
    · rw [hsnd, hasAnyLegalMove_avail_irrel]
      exact hspec.2.2
  have hfr := update_piece_status_frame st lm
  have ht2 : (update_board_status (update_piece_status st lm) lm).turn = st.turn := hfr.1
  have hh2 : (update_board_status (update_piece_status st lm) lm).move_history =
      st.move_history := hfr.2.1
  unfold process_after_move
  rw [hlast]
  dsimp only
  constructor
  · intro hnp
    rw [if_neg hnp]
    dsimp only
    obtain ⟨ha, hb, hc, hd⟩ := core _ ht2
    exact ⟨_, rfl, ha, hb, hc, hd⟩
  · intro hp
    rw [if_pos hp]
    dsimp only
    refine ⟨rfl, fun n => ?_⟩
    unfold promotion_item_click
    rw [show (update_board_status (update_piece_status st lm) lm).move_history.getLast? =
      some lm by rw [hh2]; exact hlast]
    dsimp only
    apply core
    split <;> exact ht2

theorem C2_game_over_classification_witness :
    (stC7.move_history.getLast? = some mvC7 ∧
     (stC7.turn = ptWHITE ∨ stC7.turn = ptBLACK)) ∧
    ((mvC7.move_type ≠ MoveType.PROMOTION →
      ∃ out : GameOutcome, (process_after_move stC7).2 = some out ∧
        (process_after_move stC7).1.turn = stC7.turn ^^^ COLOR_MASK ∧
        (out = GameOutcome.win stC7.turn ↔
          inCheckP (process_after_move stC7).1 ∧
          ¬ hasAnyLegalMove (process_after_move stC7).1) ∧
        (out = GameOutcome.tie ↔
          ¬ inCheckP (process_after_move stC7).1 ∧
          ¬ hasAnyLegalMove (process_after_move stC7).1) ∧
        (out = GameOutcome.ongoing ↔ hasAnyLegalMove (process_after_move stC7).1)) ∧
     (mvC7.move_type = MoveType.PROMOTION →
      (process_after_move stC7).2 = none ∧
      ∀ n : Nat,
        (promotion_item_click (process_after_move stC7).1 n).1.turn =
          stC7.turn ^^^ COLOR_MASK ∧
        ((promotion_item_click (process_after_move stC7).1 n).2 =
            GameOutcome.win stC7.turn ↔
          inCheckP (promotion_item_click (process_after_move stC7).1 n).1 ∧
          ¬ hasAnyLegalMove (promotion_item_click (process_after_move stC7).1 n).1) ∧
        ((promotion_item_click (process_after_move stC7).1 n).2 = GameOutcome.tie ↔
          ¬ inCheckP (promotion_item_click (process_after_move stC7).1 n).1 ∧
          ¬ hasAnyLegalMove (promotion_item_click (process_after_move stC7).1 n).1) ∧
        ((promotion_item_click (process_after_move stC7).1 n).2 = GameOutcome.ongoing ↔
          hasAnyLegalMove (promotion_item_click (process_after_move stC7).1 n).1))) :=
  ⟨⟨rfl, Or.inl rfl⟩, C2_game_over_classification stC7 mvC7 rfl (Or.inl rfl)⟩

/-! ### Claim C4 -/

theorem ite_some_none_eq_some {α : Type} {c : Prop} [Decidable c] {a m : α}
    (h : (if c then some a else none) = some m) : m = a ∧ c := by
  split at h
  · next hc => exact ⟨(Option.some_inj.mp h).symm, hc⟩
  · exact absurd h (by simp)

theorem basic_moves_move_type (st : GameState) (pid : PieceId) (color kind : Nat)
    (rank file : Int) (cand : List (Int × Int)) :
    ∀ m ∈ basic_moves st pid color kind rank file cand,
      m.move_type = MoveType.BASIC ∨ m.move_type = MoveType.PROMOTION := by
  intro m hm
  unfold basic_moves at hm
  rw [List.mem_filterMap] at hm
  obtain ⟨sq, hsq, heq⟩ := hm
  obtain ⟨hm2, -⟩ := ite_some_none_eq_some heq
  subst hm2
  dsimp only
  repeat' split
  all_goals first | exact Or.inl rfl | exact Or.inr rfl

/-- En-passant moves reach the availability list only through the
en-passant branch: the piece is a pawn, `__is_en_passant_available`
approved, the legality filter approved, and the move's fields are the
branch's construction (destination one rank forward onto the last-moved
pawn's file, auxiliary square that pawn's current square). -/
theorem mem_avail_en_passant (st : GameState) (pid : PieceId) (m : PieceMove)
    (hm : m ∈ (get_available_moves st pid).2.avail_moves)
    (hep : m.move_type = MoveType.EN_PASSANT) :
    ∃ lm : PieceMove, st.move_history.getLast? = some lm ∧
      is_en_passant_available st (st.pieces pid).color
        (st.pieces pid).rank (st.pieces pid).file = true ∧
      is_legal_move st m = true ∧
      m.new_square = (if (st.pieces pid).color = ptWHITE
        then ((st.pieces pid).rank + 1, (st.pieces lm.piece_to_move).file)
        else ((st.pieces pid).rank - 1, (st.pieces lm.piece_to_move).file)) ∧
      m.aux_square = some [((st.pieces lm.piece_to_move).rank,
        (st.pieces lm.piece_to_move).file)] ∧
      m.piece_in_capture = some lm.piece_to_move := by
  unfold get_available_moves at hm
  dsimp only at hm
  by_cases hk : (st.pieces pid).kind = ptPAWN
  · rw [hk] at hm
    rw [if_neg (by decide : ¬(ptPAWN = ptKING)), if_pos rfl] at hm
    by_cases hav : is_en_passant_available st (st.pieces pid).color
        (st.pieces pid).rank (st.pieces pid).file = true
    · rw [if_pos hav] at hm
      cases hl : st.move_history.getLast? with
      | none =>
        rw [hl] at hm
        rcases basic_moves_move_type st pid _ _ _ _ _ m hm with h | h <;>
          rw [hep] at h <;> exact absurd h (by decide)
      | some lm =>
        rw [hl] at hm
        dsimp only at hm
        split at hm
        next hcw =>
          split at hm
          next hleg =>
            rw [List.mem_append] at hm
            rcases hm with hm | hm
            · rcases basic_moves_move_type st pid _ _ _ _ _ m hm with h | h <;>
                rw [hep] at h <;> exact absurd h (by decide)
            · rw [List.mem_singleton] at hm
              subst hm
              refine ⟨lm, rfl, hav, hleg, ?_, rfl, rfl⟩
              rw [if_pos hcw]
          next hleg =>
            rcases basic_moves_move_type st pid _ _ _ _ _ m hm with h | h <;>
              rw [hep] at h <;> exact absurd h (by decide)
        next hcw =>
          split at hm
          next hleg =>
            rw [List.mem_append] at hm
            rcases hm with hm | hm
            · rcases basic_moves_move_type st pid _ _ _ _ _ m hm with h | h <;>
                rw [hep] at h <;> exact absurd h (by decide)
            · rw [List.mem_singleton] at hm
              subst hm
              refine ⟨lm, rfl, hav, hleg, ?_, rfl, rfl⟩
              rw [if_neg hcw]
          next hleg =>
            rcases basic_moves_move_type st pid _ _ _ _ _ m hm with h | h <;>
              rw [hep] at h <;> exact absurd h (by decide)
    · rw [if_neg hav] at hm
      rcases basic_moves_move_type st pid _ _ _ _ _ m hm with h | h <;>
        rw [hep] at h <;> exact absurd h (by decide)
  · rw [if_neg hk] at hm
    by_cases hkg : (st.pieces pid).kind = ptKING
    · rw [hkg] at hm
      rw [if_pos rfl] at hm
      have hcast : ∀ (l : List PieceMove),
          (∀ x ∈ l, x.move_type = MoveType.BASIC ∨ x.move_type = MoveType.PROMOTION ∨
            x.move_type = MoveType.CASTLING_K ∨ x.move_type = MoveType.CASTLING_Q) →
          m ∈ l → False := by
        intro l hl hml
        rcases hl m hml with h | h | h | h <;> rw [hep] at h <;> exact absurd h (by decide)
      refine absurd hm (hcast _ ?_)
      intro x hx
      ·
        split at hx
        · split at hx
          · rcases List.mem_append.mp hx with hx | hx
            · rcases List.mem_append.mp hx with hx | hx
              · rcases basic_moves_move_type st pid _ _ _ _ _ x hx with h | h
                · exact Or.inl h
                · exact Or.inr (Or.inl h)
              · rw [List.mem_singleton] at hx
                subst hx
                exact Or.inr (Or.inr (Or.inl rfl))
            · rw [List.mem_singleton] at hx
              subst hx
              exact Or.inr (Or.inr (Or.inr rfl))
          · rcases List.mem_append.mp hx with hx | hx
            · rcases basic_moves_move_type st pid _ _ _ _ _ x hx with h | h
              · exact Or.inl h
              · exact Or.inr (Or.inl h)
            · rw [List.mem_singleton] at hx
              subst hx
              exact Or.inr (Or.inr (Or.inr rfl))
        · split at hx
          · rcases List.mem_append.mp hx with hx | hx
            · rcases basic_moves_move_type st pid _ _ _ _ _ x hx with h | h
              · exact Or.inl h
              · exact Or.inr (Or.inl h)
            · rw [List.mem_singleton] at hx
              subst hx
              exact Or.inr (Or.inr (Or.inl rfl))
          · rcases basic_moves_move_type st pid _ _ _ _ _ x hx with h | h
            · exact Or.inl h
            · exact Or.inr (Or.inl h)
    · rw [if_neg hkg] at hm
      rcases basic_moves_move_type st pid _ _ _ _ _ m hm with h | h <;>
        rw [hep] at h <;> exact absurd h (by decide)

/-- C4 (amended: the source checks only the *kind* of the last-moved piece,
not its color, so "enemy" is dropped): an en-passant capture is offered to
a pawn at `(rank, file)` only when the move history is non-empty and the
last move's piece is a pawn — of either color; in the reachable game flow
always the opponent's — standing on the en-passant rank (4 for a
White-capturing pawn, 3 for Black) with `|Δfile| = 1`, and the capturing
pawn itself stands on that rank; the synthesized EnPassant move's
destination is one rank forward onto that pawn's file, its auxiliary
square is that pawn's current square, and it still passes the legality
filter. -/
theorem C4_en_passant_rule (st : GameState) :
    (∀ (turn : Nat) (rank file : Int),
      is_en_passant_available st turn rank file = true ↔
        ∃ lm : PieceMove, st.move_history.getLast? = some lm ∧
          (st.pieces lm.piece_to_move).kind = ptPAWN ∧
          rank = (if turn = ptWHITE then (4 : Int) else 3) ∧
          (st.pieces lm.piece_to_move).rank = (if turn = ptWHITE then (4 : Int) else 3) ∧
          (file - (st.pieces lm.piece_to_move).file).natAbs = 1) ∧
    (∀ (pid : PieceId) (m : PieceMove),
      m ∈ (get_available_moves st pid).2.avail_moves →
      m.move_type = MoveType.EN_PASSANT →
      ∃ lm : PieceMove, st.move_history.getLast? = some lm ∧
        is_en_passant_available st (st.pieces pid).color
          (st.pieces pid).rank (st.pieces pid).file = true ∧
        is_legal_move st m = true ∧
        m.new_square = (if (st.pieces pid).color = ptWHITE
          then ((st.pieces pid).rank + 1, (st.pieces lm.piece_to_move).file)
          else ((st.pieces pid).rank - 1, (st.pieces lm.piece_to_move).file)) ∧
        m.aux_square = some [((st.pieces lm.piece_to_move).rank,
          (st.pieces lm.piece_to_move).file)] ∧
        m.piece_in_capture = some lm.piece_to_move) := by
  constructor
  · intro turn rank file
    unfold is_en_passant_available
    cases hl : st.move_history.getLast? with
    | none =>
      simp only [Bool.false_eq_true, false_iff]
      rintro ⟨lm, hlm, -⟩
      exact absurd hlm (by simp [hl])
    | some lm =>
      dsimp only
      by_cases hk : (st.pieces lm.piece_to_move).kind = ptPAWN
      · rw [if_pos (by simp [hk])]
        simp only [Bool.and_eq_true, decide_eq_true_eq, beq_iff_eq]
        constructor
        · rintro ⟨⟨hr, hpr⟩, hf⟩
          exact ⟨lm, rfl, hk, hr, hpr, hf⟩
        · rintro ⟨lm2, hlm2, -, hr, hpr, hf⟩
          rw [Option.some.injEq] at hlm2
          subst hlm2
          exact ⟨⟨hr, hpr⟩, hf⟩
      · rw [if_neg (by simp [hk])]
        simp only [Bool.false_eq_true, false_iff]
        rintro ⟨lm2, hlm2, hk2, -⟩
        rw [Option.some.injEq] at hlm2
        subst hlm2
        exact hk hk2
  · intro pid m hm hep
    exact mem_avail_en_passant st pid m hm hep

/-- Last move of the counterexample history: the *White* pawn with id 13
(now standing on f5) moved. -/
def mvC4x : PieceMove :=
  { piece_to_move := 13
    piece_in_capture := none
    piece_aux := none
    move_type := MoveType.BASIC
    old_square := (3, 5)
    new_square := (4, 5)
    aux_square := none }

/-- White king e1, White pawn e5 (id 12), White pawn f5 (id 13); the last
history entry records the move of the White pawn 13. -/
def stC4x : GameState :=
  { board_status := fun r f =>
      if r = 0 ∧ f = 4 then WHITE_KING
      else if r = 4 ∧ f = 4 then WHITE_PAWN
      else if r = 4 ∧ f = 5 then WHITE_PAWN
      else ptEMPTY
    pieces := fun i =>
      if i = 0 then { rank := 0, file := 4, ptype := WHITE_KING, already_moved := false }
      else if i = 12 then { rank := 4, file := 4, ptype := WHITE_PAWN, already_moved := true }
      else if i = 13 then { rank := 4, file := 5, ptype := WHITE_PAWN, already_moved := true }
      else { rank := -1, file := -1, ptype := ptEMPTY, already_moved := false }
    active_white := [0, 12, 13]
    active_black := []
    turn := ptWHITE
    move_history := [mvC4x]
    promotion_mode := false
    is_in_focus := false
    piece_in_focus := none
    avail_moves := [] }

/-- C4 counterexample: the en-passant guard never inspects the last-moved
pawn's color, so with a *White* pawn as the last mover (same color as the
capturing White pawn on e5 — not an enemy pawn) an EnPassant move is still
offered, refuting the claim's "the last move's piece is an enemy pawn"
necessary condition. -/
theorem C4_counterexample :
    ((get_available_moves stC4x 12).2.avail_moves.any
      fun m => m.move_type == MoveType.EN_PASSANT) = true ∧
    stC4x.move_history.getLast? = some mvC4x ∧
    getPieceColor ((stC4x.pieces mvC4x.piece_to_move).ptype) =
      getPieceColor ((stC4x.pieces 12).ptype) := by
  decide

/-- Last move of the witness history: the Black pawn with id 29 (now on
f5) moved. -/
def mvC4w : PieceMove :=
  { piece_to_move := 29
    piece_in_capture := none
    piece_aux := none
    move_type := MoveType.BASIC
    old_square := (6, 5)
    new_square := (4, 5)
    aux_square := none }

/-- White king e1, White pawn e5 (id 12), Black pawn f5 (id 29) that just
arrived there. -/
def stC4w : GameState :=
  { board_status := fun r f =>
      if r = 0 ∧ f = 4 then WHITE_KING
      else if r = 4 ∧ f = 4 then WHITE_PAWN
      else if r = 4 ∧ f = 5 then BLACK_PAWN
      else ptEMPTY
    pieces := fun i =>
      if i = 0 then { rank := 0, file := 4, ptype := WHITE_KING, already_moved := false }
      else if i = 12 then { rank := 4, file := 4, ptype := WHITE_PAWN, already_moved := true }
      else if i = 29 then { rank := 4, file := 5, ptype := BLACK_PAWN, already_moved := true }
      else { rank := -1, file := -1, ptype := ptEMPTY, already_moved := false }
    active_white := [0, 12]
    active_black := [29]
    turn := ptWHITE
    move_history := [mvC4w]
    promotion_mode := false
    is_in_focus := false
    piece_in_focus := none
    avail_moves := [] }

/-- The EnPassant move the generator synthesizes for the pawn with id 12
in `stC4w`. -/
def epMvC4w : PieceMove :=
  { piece_to_move := 12
    piece_in_capture := some 29
    piece_aux := none
    move_type := MoveType.EN_PASSANT
    old_square := (4, 4)
    new_square := (5, 5)
    aux_square := some [(4, 5)] }

theorem C4_en_passant_rule_witness :
    (epMvC4w ∈ (get_available_moves stC4w 12).2.avail_moves ∧
     epMvC4w.move_type = MoveType.EN_PASSANT) ∧
    (∃ lm : PieceMove, stC4w.move_history.getLast? = some lm ∧
      is_en_passant_available stC4w (stC4w.pieces 12).color
        (stC4w.pieces 12).rank (stC4w.pieces 12).file = true ∧
      is_legal_move stC4w epMvC4w = true ∧
      epMvC4w.new_square = (if (stC4w.pieces 12).color = ptWHITE
        then ((stC4w.pieces 12).rank + 1, (stC4w.pieces lm.piece_to_move).file)
        else ((stC4w.pieces 12).rank - 1, (stC4w.pieces lm.piece_to_move).file)) ∧
      epMvC4w.aux_square = some [((stC4w.pieces lm.piece_to_move).rank,
        (stC4w.pieces lm.piece_to_move).file)] ∧
      epMvC4w.piece_in_capture = some lm.piece_to_move) :=
  ⟨⟨by decide, rfl⟩, (C4_en_passant_rule stC4w).2 12 epMvC4w (by decide) rfl⟩

/-! ### Claim C3 -/

/-- The two-square path walk of `__is_castling_available`, rewritten with a
fresh scratch board per square: the roll-back between iterations restores
the scratch board exactly when the first path square was empty on the live
board (which the between-squares check guarantees). -/
theorem castle_path_two (turn kingPt : Nat) (kr kf : Int) (board : Board)
    (a b : Int × Int) (hA : board a.1 a.2 = ptEMPTY) :
    castle_path_check turn kingPt kr kf board [a, b] = true ↔
      (check_king_safety turn (setB (setB board kr kf ptEMPTY) a.1 a.2 kingPt) = true ∧
       check_king_safety turn (setB (setB board kr kf ptEMPTY) b.1 b.2 kingPt) = true) := by
  have hb2 : setB (setB (setB (setB (setB (setB board kr kf ptEMPTY) a.1 a.2 kingPt)
        kr kf kingPt) a.1 a.2 ptEMPTY) kr kf ptEMPTY) b.1 b.2 kingPt =
      setB (setB board kr kf ptEMPTY) b.1 b.2 kingPt := by
    funext r f
    simp only [setB]
    split_ifs with h1 h2 h3
    · rfl
    · rfl
    · rw [h3.1, h3.2, hA]
    · rfl
  simp only [castle_path_check]
  rw [hb2]
  cases hs1 : check_king_safety turn (setB (setB board kr kf ptEMPTY) a.1 a.2 kingPt) <;>
    cases hs2 : check_king_safety turn (setB (setB board kr kf ptEMPTY) b.1 b.2 kingPt) <;>
      simp [hs1, hs2]

/-- `__is_castling_available` as the in-order conjunction of its four
checks, the path walk still in its threaded form. -/
theorem is_castling_available_iff (st : GameState) (turn : Nat) (side : MoveType)
    (kingId rookId : PieceId) (between path : List (Int × Int))
    (hcfg : castling_config turn side = some (kingId, rookId, between, path)) :
    is_castling_available st turn side = true ↔
      ((st.pieces kingId).already_moved = false ∧
       (st.pieces rookId).already_moved = false ∧
       (∀ sq ∈ between, st.board_status sq.1 sq.2 = ptEMPTY) ∧
       check_king_safety turn st.board_status = true ∧
       castle_path_check turn (st.pieces kingId).ptype (st.pieces kingId).rank
         (st.pieces kingId).file st.board_status path = true) := by
  unfold is_castling_available
  rw [hcfg]
  dsimp only
  by_cases h1 : ((st.pieces kingId).already_moved || (st.pieces rookId).already_moved) = true
  · rw [if_pos h1]
    simp only [Bool.false_eq_true, false_iff]
    rintro ⟨hk, hr, -⟩
    rw [hk, hr] at h1
    exact absurd h1 (by decide)
  · rw [if_neg h1]
    have h1f : ((st.pieces kingId).already_moved || (st.pieces rookId).already_moved) = false := by
      cases hx : ((st.pieces kingId).already_moved || (st.pieces rookId).already_moved)
      · rfl
      · exact absurd hx h1
    obtain ⟨hk, hr⟩ := Bool.or_eq_false_iff.mp h1f
    by_cases h2 : (between.any fun sq => st.board_status sq.1 sq.2 != ptEMPTY) = true
    · rw [if_pos h2]
      simp only [Bool.false_eq_true, false_iff]
      rintro ⟨-, -, hbe, -⟩
      rw [List.any_eq_true] at h2
      obtain ⟨sq, hsq, hne⟩ := h2
      rw [bne_iff_ne] at hne
      exact hne (hbe sq hsq)
    · rw [if_neg h2]
      have hbe : ∀ sq ∈ between, st.board_status sq.1 sq.2 = ptEMPTY := by
        intro sq hsq
        by_contra hne
        exact h2 (List.any_eq_true.mpr ⟨sq, hsq, bne_iff_ne.mpr hne⟩)
      by_cases h3 : check_king_safety turn st.board_status = true
      · rw [if_neg (by simp [h3])]
        constructor
        · intro hp
          exact ⟨hk, hr, hbe, h3, hp⟩
        · rintro ⟨-, -, -, -, hp⟩
          exact hp
      · have h3f : check_king_safety turn st.board_status = false := by
          cases hx : check_king_safety turn st.board_status
          · rfl
          · exact absurd hx h3
        rw [if_pos (by rw [h3f]; rfl)]
        simp only [Bool.false_eq_true, false_iff]
        rintro ⟨-, -, -, hs, -⟩
        exact h3 hs

/-- C3: for every color and side, `__is_castling_available` approves — and
`__get_available_moves` then synthesizes the castling move — exactly when,
in order: neither the king item nor the relevant rook item has ever moved;
every square strictly between king and rook is empty; the king is not
currently in check; and every square the king transits (its crossing square
and its destination) is safe when the king is temporarily placed there on a
scratch copy of the board. -/
theorem C3_castling_availability (st : GameState) (turn : Nat) (side : MoveType)
    (kingId rookId : PieceId) (between path : List (Int × Int))
    (hcfg : castling_config turn side = some (kingId, rookId, between, path)) :
    is_castling_available st turn side = true ↔
      ((st.pieces kingId).already_moved = false ∧
       (st.pieces rookId).already_moved = false ∧
       (∀ sq ∈ between, st.board_status sq.1 sq.2 = ptEMPTY) ∧
       check_king_safety turn st.board_status = true ∧
       ∀ sq ∈ path,
         check_king_safety turn
           (setB (setB st.board_status (st.pieces kingId).rank (st.pieces kingId).file
             ptEMPTY) sq.1 sq.2 (st.pieces kingId).ptype) = true) := by
  rw [is_castling_available_iff st turn side kingId rookId between path hcfg]
  unfold castling_config at hcfg
  split_ifs at hcfg with hA1 hA2 hA3 hA4 <;>
    simp only [Option.some.injEq, Prod.mk.injEq] at hcfg
  all_goals obtain ⟨rfl, rfl, rfl, rfl⟩ := hcfg
  all_goals {
    constructor
    · rintro ⟨hk, hr, hbe, hs, hp⟩
      refine ⟨hk, hr, hbe, hs, ?_⟩
      have h2 := (castle_path_two turn (st.pieces _).ptype
        (st.pieces _).rank (st.pieces _).file st.board_status
        _ _ (hbe _ (by simp))).mp hp
      intro sq hsq
      rcases List.mem_cons.mp hsq with rfl | hsq
      · exact h2.1
      · rw [List.mem_singleton] at hsq
        subst hsq
        exact h2.2
    · rintro ⟨hk, hr, hbe, hs, hp⟩
      refine ⟨hk, hr, hbe, hs, ?_⟩
      exact (castle_path_two turn (st.pieces _).ptype
        (st.pieces _).rank (st.pieces _).file st.board_status
        _ _ (hbe _ (by simp))).mpr
        ⟨hp _ (by simp), hp _ (by simp)⟩ }

/-- Castle-ready position: White king e1 (unmoved), White rook h1
(unmoved), f1 and g1 clear, Black king e8. -/
def stC3w : GameState :=
  { board_status := fun r f =>
      if r = 0 ∧ f = 4 then WHITE_KING
      else if r = 0 ∧ f = 7 then WHITE_ROOK
      else if r = 7 ∧ f = 4 then BLACK_KING
      else ptEMPTY
    pieces := fun i =>
      if i = idWhiteKing then { rank := 0, file := 4, ptype := WHITE_KING, already_moved := false }
      else if i = idWhiteRookH then { rank := 0, file := 7, ptype := WHITE_ROOK, already_moved := false }
      else if i = idBlackKing then { rank := 7, file := 4, ptype := BLACK_KING, already_moved := false }
      else { rank := -1, file := -1, ptype := ptEMPTY, already_moved := false }
    active_white := [idWhiteKing, idWhiteRookH]
    active_black := [idBlackKing]
    turn := ptWHITE
    move_history := []
    promotion_mode := false
    is_in_focus := false
    piece_in_focus := none
    avail_moves := [] }

theorem C3_castling_availability_witness :
    castling_config ptWHITE MoveType.CASTLING_K =
      some (idWhiteKing, idWhiteRookH, [(0, 5), (0, 6)], [(0, 5), (0, 6)]) ∧
    (is_castling_available stC3w ptWHITE MoveType.CASTLING_K = true ↔
      ((stC3w.pieces idWhiteKing).already_moved = false ∧
       (stC3w.pieces idWhiteRookH).already_moved = false ∧
       (∀ sq ∈ ([(0, 5), (0, 6)] : List (Int × Int)),
         stC3w.board_status sq.1 sq.2 = ptEMPTY) ∧
       check_king_safety ptWHITE stC3w.board_status = true ∧
       ∀ sq ∈ ([(0, 5), (0, 6)] : List (Int × Int)),
         check_king_safety ptWHITE
           (setB (setB stC3w.board_status (stC3w.pieces idWhiteKing).rank
             (stC3w.pieces idWhiteKing).file ptEMPTY) sq.1 sq.2
             (stC3w.pieces idWhiteKing).ptype) = true)) :=
  ⟨rfl, C3_castling_availability stC3w ptWHITE MoveType.CASTLING_K idWhiteKing idWhiteRookH
    [(0, 5), (0, 6)] [(0, 5), (0, 6)] rfl⟩

/-! ### Claim C6: helpers

Castling moves are appended without an explicit `__is_legal_move` call;
their legality is instead a consequence of the path check.  The lemmas
below compare the board after castling with the board of the final path
probe: they differ only at the rook's old and new squares, which lie on the
king's back rank where the rook move can only block (its new square is the
king's immediate neighbour, its old square is between the new rook square
and the board edge), so every attack on the castled board is an attack on
the probed board. -/

theorem basic_moves_legal (st : GameState) (pid : PieceId) (color kind : Nat)
    (rank file : Int) (cand : List (Int × Int)) :
    ∀ m ∈ basic_moves st pid color kind rank file cand, is_legal_move st m = true := by
  intro m hm
  unfold basic_moves at hm
  rw [List.mem_filterMap] at hm
  obtain ⟨sq, hsq, heq⟩ := hm
  obtain ⟨hm2, hc⟩ := ite_some_none_eq_some heq
  subst hm2
  exact hc

theorem orthHit_transfer {b1 b2 : Board} {turn : Nat} {kr kf dr df : Int} {k : Nat}
    (hag : ∀ i : Nat, 1 ≤ i →
      b1 (kr + (i : Int) * dr) (kf + (i : Int) * df) =
      b2 (kr + (i : Int) * dr) (kf + (i : Int) * df))
    (h : orthHit b1 turn kr kf dr df k) : orthHit b2 turn kr kf dr df k := by
  obtain ⟨⟨hk1, hinB, hemp⟩, hen, hkd⟩ := h
  refine ⟨⟨hk1, hinB, ?_⟩, ?_, ?_⟩
  · intro i h1 h2
    rw [← hag i h1]
    exact hemp i h1 h2
  · rw [← hag k hk1]
    exact hen
  · rw [← hag k hk1]
    exact hkd

theorem diagHit_transfer {b1 b2 : Board} {turn : Nat} {kr kf dr df : Int} {k : Nat}
    (hag : ∀ i : Nat, 1 ≤ i →
      b1 (kr + (i : Int) * dr) (kf + (i : Int) * df) =
      b2 (kr + (i : Int) * dr) (kf + (i : Int) * df))
    (h : diagHit b1 turn kr kf dr df k) : diagHit b2 turn kr kf dr df k := by
  obtain ⟨⟨hk1, hinB, hemp⟩, hen, hkd⟩ := h
  refine ⟨⟨hk1, hinB, ?_⟩, ?_, ?_⟩
  · intro i h1 h2
    rw [← hag i h1]
    exact hemp i h1 h2
  · rw [← hag k hk1]
    exact hen
  · rw [← hag k hk1]
    exact hkd

theorem knightHit_transfer {b1 b2 : Board} {turn : Nat} {kr kf : Int}
    (hag : ∀ l ∈ knightLeaps, b1 (kr + l.1) (kf + l.2) = b2 (kr + l.1) (kf + l.2))
    (h : knightHit b1 turn kr kf) : knightHit b2 turn kr kf := by
  obtain ⟨l, hl, hin, hen, hkd⟩ := h
  refine ⟨l, hl, hin, ?_, ?_⟩
  · rw [← hag l hl]
    exact hen
  · rw [← hag l hl]
    exact hkd

/-- No first-hit attack along a rank direction when every on-board square
of the ray is empty, or when the adjacent square holds a non-empty ally. -/
theorem orthHit_rank_refute {b : Board} {turn : Nat} {kr kf df : Int}
    (hcase :
      (∀ k : Nat, 1 ≤ k → inB kr (kf + (k : Int) * df) →
        b kr (kf + (k : Int) * df) = ptEMPTY) ∨
      (b kr (kf + df) ≠ ptEMPTY ∧ b kr (kf + df) &&& COLOR_MASK = turn)) :
    ∀ k : Nat, ¬ orthHit b turn kr kf 0 df k := by
  rintro k ⟨⟨hk1, hinB, hemp⟩, hen, -⟩
  have hzero : ∀ i : Nat, kr + (i : Int) * 0 = kr := by
    intro i; simp
  rcases hcase with hA | hB
  · have hin := hinB k hk1 le_rfl
    rw [hzero k] at hin
    have := hA k hk1 hin
    rw [hzero k] at hen
    exact hen.1 this
  · rcases Nat.eq_or_lt_of_le hk1 with h1 | h1
    · subst h1
      rw [hzero 1] at hen
      simp only [Nat.cast_one, one_mul] at hen
      exact hen.2 hB.2
    · have := hemp 1 le_rfl h1
      rw [hzero 1] at this
      simp only [Nat.cast_one, one_mul] at this
      exact hB.1 this

theorem uniqueKing_move {turn : Nat} {board : Board} {kr kf r2 f2 : Int}
    (hturn : turn = ptWHITE ∨ turn = ptBLACK)
    (h : uniqueKingAt turn board kr kf) (hin2 : inB r2 f2) :
    uniqueKingAt turn (setB (setB board kr kf ptEMPTY) r2 f2 (turn ||| ptKING)) r2 f2 := by
  obtain ⟨hin, hk, huni⟩ := h
  refine ⟨hin2, ?_, ?_⟩
  · rw [setB_same]
    rcases hturn with rfl | rfl <;> exact (by decide)
  · intro r hr f hf hkg
    by_cases h2 : ((r : Int) = r2 ∧ (f : Int) = f2)
    · rw [h2.1, h2.2]
    · rw [setB_other _ _ _ _ h2] at hkg
      by_cases h3 : ((r : Int) = kr ∧ (f : Int) = kf)
      · rw [h3.1, h3.2, setB_same] at hkg
        exact absurd hkg.2 (by decide)
      · rw [setB_other _ _ _ _ h3] at hkg
        have h4 := huni r hr f hf hkg
        exact absurd ⟨congrArg Prod.fst h4, congrArg Prod.snd h4⟩ h3

theorem uniqueKing_rook_moved {turn : Nat} {board : Board}
    {kr kf ro_r ro_f rn_r rn_f : Int}
    (hturn : turn = ptWHITE ∨ turn = ptBLACK)
    (h : uniqueKingAt turn board kr kf)
    (hk_ro : ¬(kr = ro_r ∧ kf = ro_f)) (hk_rn : ¬(kr = rn_r ∧ kf = rn_f)) :
    uniqueKingAt turn
      (setB (setB board ro_r ro_f ptEMPTY) rn_r rn_f (turn ||| ptROOK)) kr kf := by
  obtain ⟨hin, hk, huni⟩ := h
  refine ⟨hin, ?_, ?_⟩
  · rw [setB_other _ _ _ _ hk_rn, setB_other _ _ _ _ hk_ro]
    exact hk
  · intro r hr f hf hkg
    by_cases h2 : ((r : Int) = rn_r ∧ (f : Int) = rn_f)
    · rw [h2.1, h2.2, setB_same] at hkg
      rcases hturn with rfl | rfl <;> exact absurd hkg.2 (by decide)
    · rw [setB_other _ _ _ _ h2] at hkg
      by_cases h3 : ((r : Int) = ro_r ∧ (f : Int) = ro_f)
      · rw [h3.1, h3.2, setB_same] at hkg
        exact absurd hkg.2 (by decide)
      · rw [setB_other _ _ _ _ h3] at hkg
        exact huni r hr f hf hkg

/-- White kingside: the castled board (king g1, rook f1, e1/h1 empty) is
safe whenever the final path probe (king g1, rook still h1) was. -/
theorem castle_result_safe_wk (board : Board)
    (huniq : uniqueKingAt ptWHITE board 0 4)
    (hsafeT : check_king_safety ptWHITE
      (setB (setB board 0 4 ptEMPTY) 0 6 WHITE_KING) = true) :
    check_king_safety ptWHITE
      (setB (setB (setB (setB board 0 4 ptEMPTY) 0 6 WHITE_KING) 0 7 ptEMPTY)
        0 5 WHITE_ROOK) = true := by
  have hturn : ptWHITE = ptWHITE ∨ ptWHITE = ptBLACK := Or.inl rfl
  have hu2 : uniqueKingAt ptWHITE (setB (setB board 0 4 ptEMPTY) 0 6 WHITE_KING) 0 6 :=
    uniqueKing_move hturn huniq (by decide)
  have hu3 : uniqueKingAt ptWHITE
      (setB (setB (setB (setB board 0 4 ptEMPTY) 0 6 WHITE_KING) 0 7 ptEMPTY)
        0 5 WHITE_ROOK) 0 6 :=
    uniqueKing_rook_moved hturn hu2 (by decide) (by decide)
  have hT := (check_king_safety_eq_true_iff hu2).mp hsafeT
  apply (check_king_safety_eq_true_iff hu3).mpr
  intro hatt
  apply hT
  rw [specAttacked_iff_components] at hatt ⊢
  have hag : ∀ r f : Int, ¬(r = 0 ∧ f = 7) → ¬(r = 0 ∧ f = 5) →
      (setB (setB (setB (setB board 0 4 ptEMPTY) 0 6 WHITE_KING) 0 7 ptEMPTY)
        0 5 WHITE_ROOK) r f =
      (setB (setB board 0 4 ptEMPTY) 0 6 WHITE_KING) r f := by
    intro r f h7 h5
    rw [setB_other _ _ _ _ h5, setB_other _ _ _ _ h7]
  rcases hatt with (h | h | h | h) | (h | h | h | h) | h
  · refine Or.inl (Or.inl ?_)
    obtain ⟨k, hk⟩ := h
    exact ⟨k, orthHit_transfer
      (fun i hi => hag _ _ (by omega) (by omega)) hk⟩
  · refine Or.inl (Or.inr (Or.inl ?_))
    obtain ⟨k, hk⟩ := h
    exact ⟨k, orthHit_transfer
      (fun i hi => hag _ _ (by omega) (by omega)) hk⟩
  · obtain ⟨k, hk⟩ := h
    refine absurd hk (orthHit_rank_refute (Or.inr ⟨?_, ?_⟩) k)
    · show (setB (setB (setB (setB board 0 4 ptEMPTY) 0 6 WHITE_KING) 0 7 ptEMPTY)
        0 5 WHITE_ROOK) 0 (6 + -1) ≠ ptEMPTY
      have h65 : (6 + -1 : Int) = 5 := by norm_num
      rw [h65, setB_same]
      decide
    · show (setB (setB (setB (setB board 0 4 ptEMPTY) 0 6 WHITE_KING) 0 7 ptEMPTY)
        0 5 WHITE_ROOK) 0 (6 + -1) &&& COLOR_MASK = ptWHITE
      have h65 : (6 + -1 : Int) = 5 := by norm_num
      rw [h65, setB_same]
      decide
  · obtain ⟨k, hk⟩ := h
    refine absurd hk (orthHit_rank_refute (Or.inl ?_) k)
    intro j hj1 hjin
    have hj : j = 1 := by
      obtain ⟨-, -, -, hx⟩ := hjin
      omega
    subst hj
    have h7 : (6 + ((1 : Nat) : Int) * 1 : Int) = 7 := by norm_num
    rw [h7, setB_other _ _ _ _ (by decide), setB_same]
  · refine Or.inr (Or.inl (Or.inl ?_))
    obtain ⟨k, hk⟩ := h
    exact ⟨k, diagHit_transfer
      (fun i hi => hag _ _ (by omega) (by omega)) hk⟩
  · refine Or.inr (Or.inl (Or.inr (Or.inl ?_)))
    obtain ⟨k, hk⟩ := h
    exact ⟨k, diagHit_transfer
      (fun i hi => hag _ _ (by omega) (by omega)) hk⟩
  · refine Or.inr (Or.inl (Or.inr (Or.inr (Or.inl ?_))))
    obtain ⟨k, hk⟩ := h
    exact ⟨k, diagHit_transfer
      (fun i hi => hag _ _ (by omega) (by omega)) hk⟩
  · refine Or.inr (Or.inl (Or.inr (Or.inr (Or.inr ?_))))
    obtain ⟨k, hk⟩ := h
    exact ⟨k, diagHit_transfer
      (fun i hi => hag _ _ (by omega) (by omega)) hk⟩
  · refine Or.inr (Or.inr ?_)
    refine knightHit_transfer ?_ h
    intro l hl
    fin_cases hl <;> exact hag _ _ (by decide) (by decide)

/-- White queenside: the castled board (king c1, rook d1, a1/b1/e1 empty)
is safe whenever the probe with the king on c1 (rook still a1) was. -/
theorem castle_result_safe_wq (board : Board)
    (huniq : uniqueKingAt ptWHITE board 0 4)
    (hb1 : board 0 1 = ptEMPTY)
    (hsafeT : check_king_safety ptWHITE
      (setB (setB board 0 4 ptEMPTY) 0 2 WHITE_KING) = true) :
    check_king_safety ptWHITE
      (setB (setB (setB (setB board 0 4 ptEMPTY) 0 2 WHITE_KING) 0 0 ptEMPTY)
        0 3 WHITE_ROOK) = true := by
  have hturn : ptWHITE = ptWHITE ∨ ptWHITE = ptBLACK := Or.inl rfl
  have hu2 : uniqueKingAt ptWHITE (setB (setB board 0 4 ptEMPTY) 0 2 WHITE_KING) 0 2 :=
    uniqueKing_move hturn huniq (by decide)
  have hu3 : uniqueKingAt ptWHITE
      (setB (setB (setB (setB board 0 4 ptEMPTY) 0 2 WHITE_KING) 0 0 ptEMPTY)
        0 3 WHITE_ROOK) 0 2 :=
    uniqueKing_rook_moved hturn hu2 (by decide) (by decide)
  have hT := (check_king_safety_eq_true_iff hu2).mp hsafeT
  apply (check_king_safety_eq_true_iff hu3).mpr
  intro hatt
  apply hT
  rw [specAttacked_iff_components] at hatt ⊢
  have hag : ∀ r f : Int, ¬(r = 0 ∧ f = 0) → ¬(r = 0 ∧ f = 3) →
      (setB (setB (setB (setB board 0 4 ptEMPTY) 0 2 WHITE_KING) 0 0 ptEMPTY)
        0 3 WHITE_ROOK) r f =
      (setB (setB board 0 4 ptEMPTY) 0 2 WHITE_KING) r f := by
    intro r f h0 h3
    rw [setB_other _ _ _ _ h3, setB_other _ _ _ _ h0]
  rcases hatt with (h | h | h | h) | (h | h | h | h) | h
  · refine Or.inl (Or.inl ?_)
    obtain ⟨k, hk⟩ := h
    exact ⟨k, orthHit_transfer
      (fun i hi => hag _ _ (by omega) (by omega)) hk⟩
  · refine Or.inl (Or.inr (Or.inl ?_))
    obtain ⟨k, hk⟩ := h
    exact ⟨k, orthHit_transfer
      (fun i hi => hag _ _ (by omega) (by omega)) hk⟩
  · obtain ⟨k, hk⟩ := h
    refine absurd hk (orthHit_rank_refute (Or.inl ?_) k)
    intro j hj1 hjin
    have hj : j = 1 ∨ j = 2 := by
      obtain ⟨-, -, hx, -⟩ := hjin
      omega
    rcases hj with rfl | rfl
    · have h21 : (2 + ((1 : Nat) : Int) * (-1) : Int) = 1 := by norm_num
      rw [h21, setB_other _ _ _ _ (by decide), setB_other _ _ _ _ (by decide),
        setB_other _ _ _ _ (by decide), setB_other _ _ _ _ (by decide)]
      exact hb1
    · have h20 : (2 + ((2 : Nat) : Int) * (-1) : Int) = 0 := by norm_num
      rw [h20, setB_other _ _ _ _ (by decide), setB_same]
  · obtain ⟨k, hk⟩ := h
    refine absurd hk (orthHit_rank_refute (Or.inr ⟨?_, ?_⟩) k)
    · show (setB (setB (setB (setB board 0 4 ptEMPTY) 0 2 WHITE_KING) 0 0 ptEMPTY)
        0 3 WHITE_ROOK) 0 (2 + 1) ≠ ptEMPTY
      have h23 : (2 + 1 : Int) = 3 := by norm_num
      rw [h23, setB_same]
      decide
    · show (setB (setB (setB (setB board 0 4 ptEMPTY) 0 2 WHITE_KING) 0 0 ptEMPTY)
        0 3 WHITE_ROOK) 0 (2 + 1) &&& COLOR_MASK = ptWHITE
      have h23 : (2 + 1 : Int) = 3 := by norm_num
      rw [h23, setB_same]
      decide
  · refine Or.inr (Or.inl (Or.inl ?_))
    obtain ⟨k, hk⟩ := h
    exact ⟨k, diagHit_transfer
      (fun i hi => hag _ _ (by omega) (by omega)) hk⟩
  · refine Or.inr (Or.inl (Or.inr (Or.inl ?_)))
    obtain ⟨k, hk⟩ := h
    exact ⟨k, diagHit_transfer
      (fun i hi => hag _ _ (by omega) (by omega)) hk⟩
  · refine Or.inr (Or.inl (Or.inr (Or.inr (Or.inl ?_))))
    obtain ⟨k, hk⟩ := h
    exact ⟨k, diagHit_transfer
      (fun i hi => hag _ _ (by omega) (by omega)) hk⟩
  · refine Or.inr (Or.inl (Or.inr (Or.inr (Or.inr ?_))))
    obtain ⟨k, hk⟩ := h
    exact ⟨k, diagHit_transfer
      (fun i hi => hag _ _ (by omega) (by omega)) hk⟩
  · refine Or.inr (Or.inr ?_)
    refine knightHit_transfer ?_ h
    intro l hl
    fin_cases hl <;> exact hag _ _ (by decide) (by decide)

/-- Black kingside: the castled board (king g8, rook f8, e8/h8 empty) is
safe whenever the final path probe (king g8, rook still h8) was. -/
theorem castle_result_safe_bk (board : Board)
    (huniq : uniqueKingAt ptBLACK board 7 4)
    (hsafeT : check_king_safety ptBLACK
      (setB (setB board 7 4 ptEMPTY) 7 6 BLACK_KING) = true) :
    check_king_safety ptBLACK
      (setB (setB (setB (setB board 7 4 ptEMPTY) 7 6 BLACK_KING) 7 7 ptEMPTY)
        7 5 BLACK_ROOK) = true := by
  have hturn : ptBLACK = ptWHITE ∨ ptBLACK = ptBLACK := Or.inr rfl
  have hu2 : uniqueKingAt ptBLACK (setB (setB board 7 4 ptEMPTY) 7 6 BLACK_KING) 7 6 :=
    uniqueKing_move hturn huniq (by decide)
  have hu3 : uniqueKingAt ptBLACK
      (setB (setB (setB (setB board 7 4 ptEMPTY) 7 6 BLACK_KING) 7 7 ptEMPTY)
        7 5 BLACK_ROOK) 7 6 :=
    uniqueKing_rook_moved hturn hu2 (by decide) (by decide)
  have hT := (check_king_safety_eq_true_iff hu2).mp hsafeT
  apply (check_king_safety_eq_true_iff hu3).mpr
  intro hatt
  apply hT
  rw [specAttacked_iff_components] at hatt ⊢
  have hag : ∀ r f : Int, ¬(r = 7 ∧ f = 7) → ¬(r = 7 ∧ f = 5) →
      (setB (setB (setB (setB board 7 4 ptEMPTY) 7 6 BLACK_KING) 7 7 ptEMPTY)
        7 5 BLACK_ROOK) r f =
      (setB (setB board 7 4 ptEMPTY) 7 6 BLACK_KING) r f := by
    intro r f h7 h5
    rw [setB_other _ _ _ _ h5, setB_other _ _ _ _ h7]
  rcases hatt with (h | h | h | h) | (h | h | h | h) | h
  · refine Or.inl (Or.inl ?_)
    obtain ⟨k, hk⟩ := h
    exact ⟨k, orthHit_transfer
      (fun i hi => hag _ _ (by omega) (by omega)) hk⟩
  · refine Or.inl (Or.inr (Or.inl ?_))
    obtain ⟨k, hk⟩ := h
    exact ⟨k, orthHit_transfer
      (fun i hi => hag _ _ (by omega) (by omega)) hk⟩
  · obtain ⟨k, hk⟩ := h
    refine absurd hk (orthHit_rank_refute (Or.inr ⟨?_, ?_⟩) k)
    · show (setB (setB (setB (setB board 7 4 ptEMPTY) 7 6 BLACK_KING) 7 7 ptEMPTY)
        7 5 BLACK_ROOK) 7 (6 + -1) ≠ ptEMPTY
      have h65 : (6 + -1 : Int) = 5 := by norm_num
      rw [h65, setB_same]
      decide
    · show (setB (setB (setB (setB board 7 4 ptEMPTY) 7 6 BLACK_KING) 7 7 ptEMPTY)
        7 5 BLACK_ROOK) 7 (6 + -1) &&& COLOR_MASK = ptBLACK
      have h65 : (6 + -1 : Int) = 5 := by norm_num
      rw [h65, setB_same]
      decide
  · obtain ⟨k, hk⟩ := h
    refine absurd hk (orthHit_rank_refute (Or.inl ?_) k)
    intro j hj1 hjin
    have hj : j = 1 := by
      obtain ⟨-, -, -, hx⟩ := hjin
      omega
    subst hj
    have h7 : (6 + ((1 : Nat) : Int) * 1 : Int) = 7 := by norm_num
    rw [h7, setB_other _ _ _ _ (by decide), setB_same]
  · refine Or.inr (Or.inl (Or.inl ?_))
    obtain ⟨k, hk⟩ := h
    exact ⟨k, diagHit_transfer
      (fun i hi => hag _ _ (by omega) (by omega)) hk⟩
  · refine Or.inr (Or.inl (Or.inr (Or.inl ?_)))
    obtain ⟨k, hk⟩ := h
    exact ⟨k, diagHit_transfer
      (fun i hi => hag _ _ (by omega) (by omega)) hk⟩
  · refine Or.inr (Or.inl (Or.inr (Or.inr (Or.inl ?_))))
    obtain ⟨k, hk⟩ := h
    exact ⟨k, diagHit_transfer
      (fun i hi => hag _ _ (by omega) (by omega)) hk⟩
  · refine Or.inr (Or.inl (Or.inr (Or.inr (Or.inr ?_))))
    obtain ⟨k, hk⟩ := h
    exact ⟨k, diagHit_transfer
      (fun i hi => hag _ _ (by omega) (by omega)) hk⟩
  · refine Or.inr (Or.inr ?_)
    refine knightHit_transfer ?_ h
    intro l hl
    fin_cases hl <;> exact hag _ _ (by decide) (by decide)

/-- Black queenside: the castled board (king c8, rook d8, a8/b8/e8 empty)
is safe whenever the probe with the king on c8 (rook still a8) was. -/
theorem castle_result_safe_bq (board : Board)
    (huniq : uniqueKingAt ptBLACK board 7 4)
    (hb1 : board 7 1 = ptEMPTY)
    (hsafeT : check_king_safety ptBLACK
      (setB (setB board 7 4 ptEMPTY) 7 2 BLACK_KING) = true) :
    check_king_safety ptBLACK
      (setB (setB (setB (setB board 7 4 ptEMPTY) 7 2 BLACK_KING) 7 0 ptEMPTY)
        7 3 BLACK_ROOK) = true := by
  have hturn : ptBLACK = ptWHITE ∨ ptBLACK = ptBLACK := Or.inr rfl
  have hu2 : uniqueKingAt ptBLACK (setB (setB board 7 4 ptEMPTY) 7 2 BLACK_KING) 7 2 :=
    uniqueKing_move hturn huniq (by decide)
  have hu3 : uniqueKingAt ptBLACK
      (setB (setB (setB (setB board 7 4 ptEMPTY) 7 2 BLACK_KING) 7 0 ptEMPTY)
        7 3 BLACK_ROOK) 7 2 :=
    uniqueKing_rook_moved hturn hu2 (by decide) (by decide)
  have hT := (check_king_safety_eq_true_iff hu2).mp hsafeT
  apply (check_king_safety_eq_true_iff hu3).mpr
  intro hatt
  apply hT
  rw [specAttacked_iff_components] at hatt ⊢
  have hag : ∀ r f : Int, ¬(r = 7 ∧ f = 0) → ¬(r = 7 ∧ f = 3) →
      (setB (setB (setB (setB board 7 4 ptEMPTY) 7 2 BLACK_KING) 7 0 ptEMPTY)
        7 3 BLACK_ROOK) r f =
      (setB (setB board 7 4 ptEMPTY) 7 2 BLACK_KING) r f := by
    intro r f h0 h3
    rw [setB_other _ _ _ _ h3, setB_other _ _ _ _ h0]
  rcases hatt with (h | h | h | h) | (h | h | h | h) | h
  · refine Or.inl (Or.inl ?_)
    obtain ⟨k, hk⟩ := h
    exact ⟨k, orthHit_transfer
      (fun i hi => hag _ _ (by omega) (by omega)) hk⟩
  · refine Or.inl (Or.inr (Or.inl ?_))
    obtain ⟨k, hk⟩ := h
    exact ⟨k, orthHit_transfer
      (fun i hi => hag _ _ (by omega) (by omega)) hk⟩
  · obtain ⟨k, hk⟩ := h
    refine absurd hk (orthHit_rank_refute (Or.inl ?_) k)
    intro j hj1 hjin
    have hj : j = 1 ∨ j = 2 := by
      obtain ⟨-, -, hx, -⟩ := hjin
      omega
    rcases hj with rfl | rfl
    · have h21 : (2 + ((1 : Nat) : Int) * (-1) : Int) = 1 := by norm_num
      rw [h21, setB_other _ _ _ _ (by decide), setB_other _ _ _ _ (by decide),
        setB_other _ _ _ _ (by decide), setB_other _ _ _ _ (by decide)]
      exact hb1
    · have h20 : (2 + ((2 : Nat) : Int) * (-1) : Int) = 0 := by norm_num
      rw [h20, setB_other _ _ _ _ (by decide), setB_same]
  · obtain ⟨k, hk⟩ := h
    refine absurd hk (orthHit_rank_refute (Or.inr ⟨?_, ?_⟩) k)
    · show (setB (setB (setB (setB board 7 4 ptEMPTY) 7 2 BLACK_KING) 7 0 ptEMPTY)
        7 3 BLACK_ROOK) 7 (2 + 1) ≠ ptEMPTY
      have h23 : (2 + 1 : Int) = 3 := by norm_num
      rw [h23, setB_same]
      decide
    · show (setB (setB (setB (setB board 7 4 ptEMPTY) 7 2 BLACK_KING) 7 0 ptEMPTY)
        7 3 BLACK_ROOK) 7 (2 + 1) &&& COLOR_MASK = ptBLACK
      have h23 : (2 + 1 : Int) = 3 := by norm_num
      rw [h23, setB_same]
      decide
  · refine Or.inr (Or.inl (Or.inl ?_))
    obtain ⟨k, hk⟩ := h
    exact ⟨k, diagHit_transfer
      (fun i hi => hag _ _ (by omega) (by omega)) hk⟩
  · refine Or.inr (Or.inl (Or.inr (Or.inl ?_)))
    obtain ⟨k, hk⟩ := h
    exact ⟨k, diagHit_transfer
      (fun i hi => hag _ _ (by omega) (by omega)) hk⟩
  · refine Or.inr (Or.inl (Or.inr (Or.inr (Or.inl ?_))))
    obtain ⟨k, hk⟩ := h
    exact ⟨k, diagHit_transfer
      (fun i hi => hag _ _ (by omega) (by omega)) hk⟩
  · refine Or.inr (Or.inl (Or.inr (Or.inr (Or.inr ?_))))
    obtain ⟨k, hk⟩ := h
    exact ⟨k, diagHit_transfer
      (fun i hi => hag _ _ (by omega) (by omega)) hk⟩
  · refine Or.inr (Or.inr ?_)
    refine knightHit_transfer ?_ h
    intro l hl
    fin_cases hl <;> exact hag _ _ (by decide) (by decide)

/-- Consistency of a king `ChessPiece` item with the board array: its type
code is its color's king, and — as the constructor guarantees and every
move preserves — while it has never moved it still stands on its home
square and is its color's unique king there. -/
def kingConsistent (st : GameState) (kid : PieceId) (turn : Nat)
    (home : Int × Int) : Prop :=
  (st.pieces kid).ptype = (turn ||| ptKING) ∧
  ((st.pieces kid).already_moved = false →
    (st.pieces kid).rank = home.1 ∧ (st.pieces kid).file = home.2 ∧
    uniqueKingAt turn st.board_status home.1 home.2)

instance (st : GameState) (kid : PieceId) (turn : Nat) (home : Int × Int) :
    Decidable (kingConsistent st kid turn home) := by
  unfold kingConsistent
  infer_instance

/-- Consistency of a rook `ChessPiece` item with the board array: its type
code is its color's rook, and while it has never moved it still records its
home square. -/
def rookConsistent (st : GameState) (rid : PieceId) (turn : Nat)
    (home : Int × Int) : Prop :=
  (st.pieces rid).ptype = (turn ||| ptROOK) ∧
  ((st.pieces rid).already_moved = false →
    (st.pieces rid).rank = home.1 ∧ (st.pieces rid).file = home.2)

instance (st : GameState) (rid : PieceId) (turn : Nat) (home : Int × Int) :
    Decidable (rookConsistent st rid turn home) := by
  unfold rookConsistent
  infer_instance

/-- The White kingside castling move synthesized by `__get_available_moves`
is accepted by `__is_legal_move`. -/
theorem castle_move_legal_wk (st : GameState)
    (hwk : kingConsistent st idWhiteKing ptWHITE (0, 4))
    (hwrh : rookConsistent st idWhiteRookH ptWHITE (0, 7))
    (hK : is_castling_available st ptWHITE MoveType.CASTLING_K = true) :
    is_legal_move st
      { piece_to_move := idWhiteKing
        piece_in_capture := none
        piece_aux := some idWhiteRookH
        move_type := MoveType.CASTLING_K
        old_square := ((st.pieces idWhiteKing).rank, (st.pieces idWhiteKing).file)
        new_square := ((st.pieces idWhiteKing).rank, (st.pieces idWhiteKing).file + 2)
        aux_square := some [((st.pieces idWhiteRookH).rank, (st.pieces idWhiteRookH).file),
          ((st.pieces idWhiteKing).rank, (st.pieces idWhiteKing).file + 1)] } = true := by
  have hcfg : castling_config ptWHITE MoveType.CASTLING_K =
      some (idWhiteKing, idWhiteRookH, [(0, 5), (0, 6)], [(0, 5), (0, 6)]) := by decide
  obtain ⟨hkm, hrm, hbe, hs, hp⟩ :=
    (is_castling_available_iff st ptWHITE MoveType.CASTLING_K _ _ _ _ hcfg).mp hK
  have hpt : (st.pieces idWhiteKing).ptype = WHITE_KING := hwk.1
  obtain ⟨hkr0, hkf0, huniq0⟩ := hwk.2 hkm
  have hkr : (st.pieces idWhiteKing).rank = 0 := hkr0
  have hkf : (st.pieces idWhiteKing).file = 4 := hkf0
  have huniq : uniqueKingAt ptWHITE st.board_status 0 4 := huniq0
  have hrpt : (st.pieces idWhiteRookH).ptype = WHITE_ROOK := hwrh.1
  obtain ⟨hrr0, hrf0⟩ := hwrh.2 hrm
  have hrr : (st.pieces idWhiteRookH).rank = 0 := hrr0
  have hrf : (st.pieces idWhiteRookH).file = 7 := hrf0
  rw [hpt, hkr, hkf] at hp
  have hTs := (castle_path_two ptWHITE WHITE_KING 0 4 st.board_status (0, 5) (0, 6)
    (hbe _ (by simp))).mp hp
  have hsafe := castle_result_safe_wk st.board_status huniq hTs.2
  show check_king_safety ((st.pieces idWhiteKing).ptype &&& COLOR_MASK)
    (setB (setB (setB (setB st.board_status (st.pieces idWhiteKing).rank
        (st.pieces idWhiteKing).file ptEMPTY)
      (st.pieces idWhiteKing).rank ((st.pieces idWhiteKing).file + 2)
      (st.pieces idWhiteKing).ptype)
      (st.pieces idWhiteRookH).rank (st.pieces idWhiteRookH).file ptEMPTY)
      (st.pieces idWhiteKing).rank ((st.pieces idWhiteKing).file + 1)
      (st.pieces idWhiteRookH).ptype) = true
  rw [hpt, hkr, hkf, hrr, hrf, hrpt]
  have h6 : (4 : Int) + 2 = 6 := by norm_num
  have h5 : (4 : Int) + 1 = 5 := by norm_num
  rw [h6, h5]
  have hmask : WHITE_KING &&& COLOR_MASK = ptWHITE := by decide
  rw [hmask]
  exact hsafe

/-- The White queenside castling move synthesized by `__get_available_moves`
is accepted by `__is_legal_move`. -/
theorem castle_move_legal_wq (st : GameState)
    (hwk : kingConsistent st idWhiteKing ptWHITE (0, 4))
    (hwra : rookConsistent st idWhiteRookA ptWHITE (0, 0))
    (hQ : is_castling_available st ptWHITE MoveType.CASTLING_Q = true) :
    is_legal_move st
      { piece_to_move := idWhiteKing
        piece_in_capture := none
        piece_aux := some idWhiteRookA
        move_type := MoveType.CASTLING_Q
        old_square := ((st.pieces idWhiteKing).rank, (st.pieces idWhiteKing).file)
        new_square := ((st.pieces idWhiteKing).rank, (st.pieces idWhiteKing).file - 2)
        aux_square := some [((st.pieces idWhiteRookA).rank, (st.pieces idWhiteRookA).file),
          ((st.pieces idWhiteRookA).rank, (st.pieces idWhiteKing).file - 1)] } = true := by
  have hcfg : castling_config ptWHITE MoveType.CASTLING_Q =
      some (idWhiteKing, idWhiteRookA, [(0, 1), (0, 2), (0, 3)], [(0, 2), (0, 3)]) := by
    decide
  obtain ⟨hkm, hrm, hbe, hs, hp⟩ :=
    (is_castling_available_iff st ptWHITE MoveType.CASTLING_Q _ _ _ _ hcfg).mp hQ
  have hpt : (st.pieces idWhiteKing).ptype = WHITE_KING := hwk.1
  obtain ⟨hkr0, hkf0, huniq0⟩ := hwk.2 hkm
  have hkr : (st.pieces idWhiteKing).rank = 0 := hkr0
  have hkf : (st.pieces idWhiteKing).file = 4 := hkf0
  have huniq : uniqueKingAt ptWHITE st.board_status 0 4 := huniq0
  have hrpt : (st.pieces idWhiteRookA).ptype = WHITE_ROOK := hwra.1
  obtain ⟨hrr0, hrf0⟩ := hwra.2 hrm
  have hrr : (st.pieces idWhiteRookA).rank = 0 := hrr0
  have hrf : (st.pieces idWhiteRookA).file = 0 := hrf0
  rw [hpt, hkr, hkf] at hp
  have hb1 : st.board_status 0 1 = ptEMPTY := hbe (0, 1) (by simp)
  have hTs := (castle_path_two ptWHITE WHITE_KING 0 4 st.board_status (0, 2) (0, 3)
    (hbe _ (by simp))).mp hp
  have hsafe := castle_result_safe_wq st.board_status huniq hb1 hTs.1
  show check_king_safety ((st.pieces idWhiteKing).ptype &&& COLOR_MASK)
    (setB (setB (setB (setB st.board_status (st.pieces idWhiteKing).rank
        (st.pieces idWhiteKing).file ptEMPTY)
      (st.pieces idWhiteKing).rank ((st.pieces idWhiteKing).file - 2)
      (st.pieces idWhiteKing).ptype)
      (st.pieces idWhiteRookA).rank (st.pieces idWhiteRookA).file ptEMPTY)
      (st.pieces idWhiteRookA).rank ((st.pieces idWhiteKing).file - 1)
      (st.pieces idWhiteRookA).ptype) = true
  rw [hpt, hkr, hkf, hrr, hrf, hrpt]
  have h2 : (4 : Int) - 2 = 2 := by norm_num
  have h3 : (4 : Int) - 1 = 3 := by norm_num
  rw [h2, h3]
  have hmask : WHITE_KING &&& COLOR_MASK = ptWHITE := by decide
  rw [hmask]
  exact hsafe

/-- The Black kingside castling move synthesized by `__get_available_moves`
is accepted by `__is_legal_move`. -/
theorem castle_move_legal_bk (st : GameState)
    (hbk : kingConsistent st idBlackKing ptBLACK (7, 4))
    (hbrh : rookConsistent st idBlackRookH ptBLACK (7, 7))
    (hK : is_castling_available st ptBLACK MoveType.CASTLING_K = true) :
    is_legal_move st
      { piece_to_move := idBlackKing
        piece_in_capture := none
        piece_aux := some idBlackRookH
        move_type := MoveType.CASTLING_K
        old_square := ((st.pieces idBlackKing).rank, (st.pieces idBlackKing).file)
        new_square := ((st.pieces idBlackKing).rank, (st.pieces idBlackKing).file + 2)
        aux_square := some [((st.pieces idBlackRookH).rank, (st.pieces idBlackRookH).file),
          ((st.pieces idBlackKing).rank, (st.pieces idBlackKing).file + 1)] } = true := by
  have hcfg : castling_config ptBLACK MoveType.CASTLING_K =
      some (idBlackKing, idBlackRookH, [(7, 5), (7, 6)], [(7, 5), (7, 6)]) := by decide
  obtain ⟨hkm, hrm, hbe, hs, hp⟩ :=
    (is_castling_available_iff st ptBLACK MoveType.CASTLING_K _ _ _ _ hcfg).mp hK
  have hpt : (st.pieces idBlackKing).ptype = BLACK_KING := hbk.1
  obtain ⟨hkr0, hkf0, huniq0⟩ := hbk.2 hkm
  have hkr : (st.pieces idBlackKing).rank = 7 := hkr0
  have hkf : (st.pieces idBlackKing).file = 4 := hkf0
  have huniq : uniqueKingAt ptBLACK st.board_status 7 4 := huniq0
  have hrpt : (st.pieces idBlackRookH).ptype = BLACK_ROOK := hbrh.1
  obtain ⟨hrr0, hrf0⟩ := hbrh.2 hrm
  have hrr : (st.pieces idBlackRookH).rank = 7 := hrr0
  have hrf : (st.pieces idBlackRookH).file = 7 := hrf0
  rw [hpt, hkr, hkf] at hp
  have hTs := (castle_path_two ptBLACK BLACK_KING 7 4 st.board_status (7, 5) (7, 6)
    (hbe _ (by simp))).mp hp
  have hsafe := castle_result_safe_bk st.board_status huniq hTs.2
  show check_king_safety ((st.pieces idBlackKing).ptype &&& COLOR_MASK)
    (setB (setB (setB (setB st.board_status (st.pieces idBlackKing).rank
        (st.pieces idBlackKing).file ptEMPTY)
      (st.pieces idBlackKing).rank ((st.pieces idBlackKing).file + 2)
      (st.pieces idBlackKing).ptype)
      (st.pieces idBlackRookH).rank (st.pieces idBlackRookH).file ptEMPTY)
      (st.pieces idBlackKing).rank ((st.pieces idBlackKing).file + 1)
      (st.pieces idBlackRookH).ptype) = true
  rw [hpt, hkr, hkf, hrr, hrf, hrpt]
  have h6 : (4 : Int) + 2 = 6 := by norm_num
  have h5 : (4 : Int) + 1 = 5 := by norm_num
  rw [h6, h5]
  have hmask : BLACK_KING &&& COLOR_MASK = ptBLACK := by decide
  rw [hmask]
  exact hsafe

/-- The Black queenside castling move synthesized by `__get_available_moves`
is accepted by `__is_legal_move`. -/
theorem castle_move_legal_bq (st : GameState)
    (hbk : kingConsistent st idBlackKing ptBLACK (7, 4))
    (hbra : rookConsistent st idBlackRookA ptBLACK (7, 0))
    (hQ : is_castling_available st ptBLACK MoveType.CASTLING_Q = true) :
    is_legal_move st
      { piece_to_move := idBlackKing
        piece_in_capture := none
        piece_aux := some idBlackRookA
        move_type := MoveType.CASTLING_Q
        old_square := ((st.pieces idBlackKing).rank, (st.pieces idBlackKing).file)
        new_square := ((st.pieces idBlackKing).rank, (st.pieces idBlackKing).file - 2)
        aux_square := some [((st.pieces idBlackRookA).rank, (st.pieces idBlackRookA).file),
          ((st.pieces idBlackRookA).rank, (st.pieces idBlackKing).file - 1)] } = true := by
  have hcfg : castling_config ptBLACK MoveType.CASTLING_Q =
      some (idBlackKing, idBlackRookA, [(7, 1), (7, 2), (7, 3)], [(7, 2), (7, 3)]) := by
    decide
  obtain ⟨hkm, hrm, hbe, hs, hp⟩ :=
    (is_castling_available_iff st ptBLACK MoveType.CASTLING_Q _ _ _ _ hcfg).mp hQ
  have hpt : (st.pieces idBlackKing).ptype = BLACK_KING := hbk.1
  obtain ⟨hkr0, hkf0, huniq0⟩ := hbk.2 hkm
  have hkr : (st.pieces idBlackKing).rank = 7 := hkr0
  have hkf : (st.pieces idBlackKing).file = 4 := hkf0
  have huniq : uniqueKingAt ptBLACK st.board_status 7 4 := huniq0
  have hrpt : (st.pieces idBlackRookA).ptype = BLACK_ROOK := hbra.1
  obtain ⟨hrr0, hrf0⟩ := hbra.2 hrm
  have hrr : (st.pieces idBlackRookA).rank = 7 := hrr0
  have hrf : (st.pieces idBlackRookA).file = 0 := hrf0
  rw [hpt, hkr, hkf] at hp
  have hb1 : st.board_status 7 1 = ptEMPTY := hbe (7, 1) (by simp)
  have hTs := (castle_path_two ptBLACK BLACK_KING 7 4 st.board_status (7, 2) (7, 3)
    (hbe _ (by simp))).mp hp
  have hsafe := castle_result_safe_bq st.board_status huniq hb1 hTs.1
  show check_king_safety ((st.pieces idBlackKing).ptype &&& COLOR_MASK)
    (setB (setB (setB (setB st.board_status (st.pieces idBlackKing).rank
        (st.pieces idBlackKing).file ptEMPTY)
      (st.pieces idBlackKing).rank ((st.pieces idBlackKing).file - 2)
      (st.pieces idBlackKing).ptype)
      (st.pieces idBlackRookA).rank (st.pieces idBlackRookA).file ptEMPTY)
      (st.pieces idBlackRookA).rank ((st.pieces idBlackKing).file - 1)
      (st.pieces idBlackRookA).ptype) = true
  rw [hpt, hkr, hkf, hrr, hrf, hrpt]
  have h2 : (4 : Int) - 2 = 2 := by norm_num
  have h3 : (4 : Int) - 1 = 3 := by norm_num
  rw [h2, h3]
  have hmask : BLACK_KING &&& COLOR_MASK = ptBLACK := by decide
  rw [hmask]
  exact hsafe

set_option maxHeartbeats 3200000 in
/-- C6: every move `__get_available_moves` offers — basic, promotion-tagged,
castling on either side, or en passant — satisfies the `__is_legal_move`
oracle: applying its full board-level effect to a clone of the board leaves
the mover's own king safe.  Basic and en-passant candidates pass through the
filter directly in the source; the castling moves are appended after
`__is_castling_available` alone, whose path probes — together with the
rook's block-only relocation on the back rank — imply the filter would
accept them as well.  The hypotheses are the standing consistency of the
king and rook items with the board array: a king-kinded mover is one of the
two king items, each item's type code is correct, and an item that has
never moved still stands on its home square (the unmoved king being its
color's unique king there). -/
theorem C6_offered_moves_pass_legality_filter (st : GameState) (pid : PieceId)
    (hkid : (st.pieces pid).kind = ptKING → pid = idWhiteKing ∨ pid = idBlackKing)
    (hwk : kingConsistent st idWhiteKing ptWHITE (0, 4))
    (hbk : kingConsistent st idBlackKing ptBLACK (7, 4))
    (hwrh : rookConsistent st idWhiteRookH ptWHITE (0, 7))
    (hwra : rookConsistent st idWhiteRookA ptWHITE (0, 0))
    (hbrh : rookConsistent st idBlackRookH ptBLACK (7, 7))
    (hbra : rookConsistent st idBlackRookA ptBLACK (7, 0)) :
    ∀ m ∈ (get_available_moves st pid).2.avail_moves, is_legal_move st m = true := by
  intro m hm
  unfold get_available_moves at hm
  dsimp only at hm
  by_cases hkp : (st.pieces pid).kind = ptPAWN
  · rw [hkp] at hm
    rw [if_neg (by decide : ¬(ptPAWN = ptKING)), if_pos rfl] at hm
    by_cases hav : is_en_passant_available st (st.pieces pid).color
        (st.pieces pid).rank (st.pieces pid).file = true
    · rw [if_pos hav] at hm
      cases hl : st.move_history.getLast? with
      | none =>
        rw [hl] at hm
        exact basic_moves_legal st pid _ _ _ _ _ m hm
      | some lm =>
        rw [hl] at hm
        dsimp only at hm
        split at hm
        next hcw =>
          split at hm
          next hleg =>
            rcases List.mem_append.mp hm with hm | hm
            · exact basic_moves_legal st pid _ _ _ _ _ m hm
            · rw [List.mem_singleton] at hm
              subst hm
              exact hleg
          next hleg => exact basic_moves_legal st pid _ _ _ _ _ m hm
        next hcw =>
          split at hm
          next hleg =>
            rcases List.mem_append.mp hm with hm | hm
            · exact basic_moves_legal st pid _ _ _ _ _ m hm
            · rw [List.mem_singleton] at hm
              subst hm
              exact hleg
          next hleg => exact basic_moves_legal st pid _ _ _ _ _ m hm
    · rw [if_neg hav] at hm
      exact basic_moves_legal st pid _ _ _ _ _ m hm
  · rw [if_neg hkp] at hm
    by_cases hkk : (st.pieces pid).kind = ptKING
    · rcases hkid hkk with rfl | rfl
      · have hcol : (st.pieces idWhiteKing).color = ptWHITE := by
          show (st.pieces idWhiteKing).ptype &&& COLOR_MASK = ptWHITE
          rw [hwk.1]
          decide
        rw [hkk, hcol] at hm
        simp only [eq_self_iff_true, if_true] at hm
        split at hm
        next hQ =>
          split at hm
          next hK =>
            rcases List.mem_append.mp hm with hm | hm
            · rcases List.mem_append.mp hm with hm | hm
              · exact basic_moves_legal st idWhiteKing _ _ _ _ _ m hm
              · rw [List.mem_singleton] at hm
                subst hm
                exact castle_move_legal_wk st hwk hwrh hK
            · rw [List.mem_singleton] at hm
              subst hm
              exact castle_move_legal_wq st hwk hwra hQ
          next hK =>
            rcases List.mem_append.mp hm with hm | hm
            · exact basic_moves_legal st idWhiteKing _ _ _ _ _ m hm
            · rw [List.mem_singleton] at hm
              subst hm
              exact castle_move_legal_wq st hwk hwra hQ
        next hQ =>
          split at hm
          next hK =>
            rcases List.mem_append.mp hm with hm | hm
            · exact basic_moves_legal st idWhiteKing _ _ _ _ _ m hm
            · rw [List.mem_singleton] at hm
              subst hm
              exact castle_move_legal_wk st hwk hwrh hK
          next => exact basic_moves_legal st idWhiteKing _ _ _ _ _ m hm
      · have hcol : (st.pieces idBlackKing).color = ptBLACK := by
          show (st.pieces idBlackKing).ptype &&& COLOR_MASK = ptBLACK
          rw [hbk.1]
          decide
        rw [hkk, hcol] at hm
        simp only [eq_self_iff_true, if_true,
          if_neg (by decide : ¬(ptBLACK = ptWHITE))] at hm
        split at hm
        next hQ =>
          split at hm
          next hK =>
            rcases List.mem_append.mp hm with hm | hm
            · rcases List.mem_append.mp hm with hm | hm
              · exact basic_moves_legal st idBlackKing _ _ _ _ _ m hm
              · rw [List.mem_singleton] at hm
                subst hm
                exact castle_move_legal_bk st hbk hbrh hK
            · rw [List.mem_singleton] at hm
              subst hm
              exact castle_move_legal_bq st hbk hbra hQ
          next hK =>
            rcases List.mem_append.mp hm with hm | hm
            · exact basic_moves_legal st idBlackKing _ _ _ _ _ m hm
            · rw [List.mem_singleton] at hm
              subst hm
              exact castle_move_legal_bq st hbk hbra hQ
        next hQ =>
          split at hm
          next hK =>
            rcases List.mem_append.mp hm with hm | hm
            · exact basic_moves_legal st idBlackKing _ _ _ _ _ m hm
            · rw [List.mem_singleton] at hm
              subst hm
              exact castle_move_legal_bk st hbk hbrh hK
          next => exact basic_moves_legal st idBlackKing _ _ _ _ _ m hm
    · rw [if_neg hkk] at hm
      exact basic_moves_legal st pid _ _ _ _ _ m hm

/-- Castle-ready position for the C6 witness: White king e1 and White rook
h1 unmoved with f1/g1 clear, Black king e8; the queenside rooks and Black
kingside rook are marked moved. -/
def stC6w : GameState :=
  { board_status := fun r f =>
      if r = 0 ∧ f = 4 then WHITE_KING
      else if r = 0 ∧ f = 7 then WHITE_ROOK
      else if r = 7 ∧ f = 4 then BLACK_KING
      else ptEMPTY
    pieces := fun pid =>
      if pid = idWhiteKing then
        { rank := 0, file := 4, ptype := WHITE_KING, already_moved := false }
      else if pid = idWhiteRookH then
        { rank := 0, file := 7, ptype := WHITE_ROOK, already_moved := false }
      else if pid = idWhiteRookA then
        { rank := 0, file := 0, ptype := WHITE_ROOK, already_moved := true }
      else if pid = idBlackKing then
        { rank := 7, file := 4, ptype := BLACK_KING, already_moved := false }
      else if pid = idBlackRookH then
        { rank := 7, file := 7, ptype := BLACK_ROOK, already_moved := true }
      else if pid = idBlackRookA then
        { rank := 7, file := 0, ptype := BLACK_ROOK, already_moved := true }
      else { rank := 0, file := 0, ptype := ptEMPTY, already_moved := true }
    active_white := [idWhiteKing, idWhiteRookH]
    active_black := [idBlackKing]
    turn := ptWHITE
    move_history := []
    promotion_mode := false
    is_in_focus := false
    piece_in_focus := none
    avail_moves := [] }

/-- The kingside castling move `__get_available_moves` synthesizes on
`stC6w`. -/
def mvC6w : PieceMove :=
  { piece_to_move := idWhiteKing
    piece_in_capture := none
    piece_aux := some idWhiteRookH
    move_type := MoveType.CASTLING_K
    old_square := (0, 4)
    new_square := (0, 6)
    aux_square := some [(0, 7), (0, 5)] }

/-- Witness for C6 at the castle-ready state: the synthesized kingside
castling move is offered and passes the legality filter. -/
theorem C6_offered_moves_pass_legality_filter_witness :
    is_legal_move stC6w mvC6w = true :=
  C6_offered_moves_pass_legality_filter stC6w idWhiteKing (by decide) (by decide)
    (by decide) (by decide) (by decide) (by decide) (by decide) mvC6w (by decide)

end Chess
